import Mathlib

/-!
# Verification of the Poker server hand engine, evaluator, ledger and snapshots

Shallow embedding of `server_online.py` (Texas Hold'em server).  Money amounts
(Python floats holding 2-decimal euro amounts) are modelled as rationals `ℚ`;
Python dicts become insertion-ordered association lists; Python exceptions
(KeyError, ValueError, IndexError) become `Option`/`Except` failure values;
`random.shuffle` is modelled by passing the already-shuffled deck as a
parameter.  Definitions follow the Python source line by line; theorems at the
end settle the specification claims.
-/

namespace Poker

/-! ## Card domain (`class Card`, `class Deck`) -/

/-- The four suits, `Card.SUITS = ['s','h','d','c']`. -/
inductive Suit where
  | s | h | d | c
deriving DecidableEq, Repr

/-- A card: `rank ∈ {2..14}` (Ace = 14), plus a suit.  The structure itself
does not enforce the rank range; validity hypotheses appear in theorems. -/
structure Card where
  rank : Nat
  suit : Suit
deriving DecidableEq, Repr

/-! ## Stable insertion sorts

Python's `list.sort(key=..., reverse=True)` is a stable descending sort:
elements with equal keys keep their original relative order.  `sortByDesc`
folds from the left and inserts each new element after all elements with a
key `≥` its own, which reproduces exactly that behaviour; `sortByAsc` is the
stable ascending variant used for seat ordering. -/

def insertByDesc (key : α → Nat) (x : α) : List α → List α
  | [] => [x]
  | y :: ys => if key x ≤ key y then y :: insertByDesc key x ys else x :: y :: ys

def sortByDesc (key : α → Nat) (l : List α) : List α :=
  l.foldl (fun acc x => insertByDesc key x acc) []

def insertByAsc (key : α → Nat) (x : α) : List α → List α
  | [] => [x]
  | y :: ys => if key y ≤ key x then y :: insertByAsc key x ys else x :: y :: ys

def sortByAsc (key : α → Nat) (l : List α) : List α :=
  l.foldl (fun acc x => insertByAsc key x acc) []

/-- Keep the first occurrence of every element, in order of first appearance,
skipping anything already in `seen`. -/
def firstOccurAux [DecidableEq α] (seen : List α) : List α → List α
  | [] => []
  | x :: xs =>
      if x ∈ seen then firstOccurAux seen xs
      else x :: firstOccurAux (x :: seen) xs

/-- Keep the first occurrence of every element, in order of first appearance.
Models iteration order over the keys of a Python dict built by insertion
(`suits`, `rank_counts`) and `set(...)` materialisation of ranks. -/
def firstOccur [DecidableEq α] (l : List α) : List α := firstOccurAux [] l

/-! ## Hand evaluator (`class HandEvaluator`), lines 79–203 -/

/-- `BASE = 10_000_000_000`: category band width of the scoring scheme. -/
def BASE : Nat := 10000000000

/-- Distinct ranks of the cards, descending:
`sorted(list(set(c.rank for c in cards)), reverse=True)`. -/
def uniqueRanksOf (cards : List Card) : List Nat :=
  sortByDesc id (firstOccur (cards.map Card.rank))

/-- First window of five consecutive distinct ranks in a strictly descending
list: the `for i in range(len(unique_ranks) - 4)` loop testing
`window[0] - window[4] == 4`. -/
def straightWindow : List Nat → Option (List Nat)
  | [] => none
  | a :: rest =>
      match rest with
      | b :: c :: d :: e :: _ =>
          if (a : Int) - (e : Int) = 4 then some [a, b, c, d, e]
          else straightWindow rest
      | _ => none

/-- Straight detection on a descending distinct-rank list, including the
wheel (A-2-3-4-5, recorded as `[5,4,3,2,14]`).  Returns `[]` when no
straight exists (Python's empty `straight_ranks`). -/
def straightRanksOf (ur : List Nat) : List Nat :=
  match straightWindow ur with
  | some w => w
  | none =>
      if ur.contains 14 && ur.contains 2 && ur.contains 3 &&
         ur.contains 4 && ur.contains 5 then
        [5, 4, 3, 2, 14]
      else []

/-- First suit (in order of first appearance among the rank-sorted cards)
with at least five cards: the flush-detection loop over the `suits` dict. -/
def flushSuit (cards : List Card) : Option Suit :=
  (firstOccur (cards.map Card.suit)).find?
    (fun st => decide (5 ≤ (cards.filter (fun c => c.suit == st)).length))

/-- Multiplicity of rank `r` among the cards (`rank_counts`). -/
def rankCount (cards : List Card) (r : Nat) : Nat :=
  (cards.filter (fun c => c.rank == r)).length

/-- The ranks occurring exactly `n` times, sorted descending
(`four_kind` / `three_kind` / `pairs` after their `.sort(reverse=True)`). -/
def ranksWithCount (cards : List Card) (n : Nat) : List Nat :=
  sortByDesc id ((uniqueRanksOf cards).filter (fun r => rankCount cards r == n))

/-- `score += k * (100 ** (e - i))` accumulation over an enumerated list:
`weightedFrom e [k₀, k₁, …] = k₀·100^e + k₁·100^(e-1) + …`. -/
def weightedFrom : Nat → List Nat → Nat
  | _, [] => 0
  | e, k :: rest => k * 100 ^ e + weightedFrom (e - 1) rest

/-- Classification cascade after the royal/straight-flush checks
(lines 139–203 of the source). -/
def evalPostSF (cards : List Card) (fSuit : Option Suit)
    (ur straightRanks : List Nat) : Option (Nat × String) :=
  let fourKind := ranksWithCount cards 4
  let threeKind := ranksWithCount cards 3
  let pairs := ranksWithCount cards 2
  match fourKind with
  | q :: _ =>
      -- kicker = max([r for r in unique_ranks if r != four_kind[0]]);
      -- `max` of an empty list raises ValueError, modelled by `none`
      match (ur.filter (fun r => r ≠ q)).max? with
      | some kicker => some (7 * BASE + q * 100 ^ 4 + kicker * 100 ^ 3, "Four of a Kind")
      | none => none
  | [] =>
    match threeKind, pairs with
    | t1 :: t2 :: _, _ => some (6 * BASE + t1 * 100 ^ 4 + t2 * 100 ^ 3, "Full House")
    | [t1], p :: _ => some (6 * BASE + t1 * 100 ^ 4 + p * 100 ^ 3, "Full House")
    | _, _ =>
      match fSuit with
      | some st =>
          some (5 * BASE +
            weightedFrom 4 (((cards.filter (fun c => c.suit == st)).take 5).map Card.rank),
            "Flush")
      | none =>
        match straightRanks with
        | s0 :: _ => some (4 * BASE + s0 * 100 ^ 4, "Straight")
        | [] =>
          match threeKind with
          | t1 :: _ =>
              -- kickers[0], kickers[1]: IndexError when fewer than two, → none
              match sortByDesc id (ur.filter (fun r => r ≠ t1)) with
              | k1 :: k2 :: _ =>
                  some (3 * BASE + t1 * 100 ^ 4 + k1 * 100 ^ 3 + k2 * 100 ^ 2,
                    "Three of a Kind")
              | _ => none
          | [] =>
            match pairs with
            | p1 :: p2 :: _ =>
                match (ur.filter (fun r => r ≠ p1 ∧ r ≠ p2)).max? with
                | some kicker =>
                    some (2 * BASE + p1 * 100 ^ 4 + p2 * 100 ^ 3 + kicker * 100 ^ 2,
                      "Two Pair")
                | none => none
            | [p1] =>
                some (1 * BASE + p1 * 100 ^ 4 +
                  weightedFrom 3 ((sortByDesc id (ur.filter (fun r => r ≠ p1))).take 3),
                  "Pair")
            | [] => some (weightedFrom 4 ((cards.take 5).map Card.rank), "High Card")

namespace HandEvaluator

/-- `HandEvaluator.evaluate(hole_cards, community_cards)`, lines 79–203.
Returns `none` where the Python code would raise (only the kicker selections
over possibly-empty sets can do so). -/
def evaluate (hole_cards community_cards : List Card) : Option (Nat × String) :=
  let cards0 := hole_cards ++ community_cards
  if cards0 = [] then some (0, "No Hand")
  else
    let cards := sortByDesc Card.rank cards0
    let fSuit := flushSuit cards
    let ur := uniqueRanksOf cards
    let straightRanks := straightRanksOf ur
    let sfRanks :=
      match fSuit with
      | some st => straightRanksOf (uniqueRanksOf (cards.filter (fun c => c.suit == st)))
      | none => []
    match sfRanks with
    | sf0 :: sfRest =>
        if sf0 = 14 ∧ (sf0 :: sfRest).getLast? ≠ some 14 then
          some (9 * BASE, "Royal Flush")
        else
          some (8 * BASE + sf0 * 1000000, "Straight Flush")
    | [] => evalPostSF cards fSuit ur straightRanks

end HandEvaluator

/-- Numeric index of each category band in the source's scoring scheme,
highest category = 9.  The ten category strings are exactly those the source
can return (plus the sentinel `"No Hand"`, which has no band). -/
def catIdx : String → Option Nat
  | "Royal Flush" => some 9
  | "Straight Flush" => some 8
  | "Four of a Kind" => some 7
  | "Full House" => some 6
  | "Flush" => some 5
  | "Straight" => some 4
  | "Three of a Kind" => some 3
  | "Two Pair" => some 2
  | "Pair" => some 1
  | "High Card" => some 0
  | _ => none

/-- The ten category strings, best first. -/
def tenCategories : List String :=
  ["Royal Flush", "Straight Flush", "Four of a Kind", "Full House", "Flush",
   "Straight", "Three of a Kind", "Two Pair", "Pair", "High Card"]

/-! ## Table state machine (`class PokerTable`, lines 336–742)

The `players` dict (`user_id → {...}`) becomes an insertion-ordered
association list; `players_acted` (a Python `set`, queried only for
membership) becomes a list with insert-if-absent; a missing-key access that
Python would turn into a `KeyError` becomes an `Option` failure. -/

/-- One player's per-table record (the per-user dict stored in
`self.players`).  The `last_action` key is absent until first written and
read with `.get('last_action', '')`, so it starts as `""`. -/
structure PlayerState where
  username : String
  chips : ℚ
  position : Nat
  is_active : Bool
  is_sitting_out : Bool
  cards : List Card
  current_bet : ℚ
  folded : Bool
  all_in : Bool
  last_action : String
deriving DecidableEq, Repr

/-- A fresh record as built by `add_player` (line 380). -/
def PlayerState.fresh (username : String) (chips : ℚ) (position : Nat) : PlayerState :=
  { username := username, chips := chips, position := position,
    is_active := true, is_sitting_out := false, cards := [],
    current_bet := 0, folded := false, all_in := false, last_action := "" }

/-- A winner entry (`{"user_id": ..., "amount": ..., "hand": ...}`).  In the
showdown path the source dicts additionally retain the intermediate `score`
and `desc` keys; nothing reads them, so they are not modelled. -/
structure Winner where
  user_id : Nat
  amount : ℚ
  hand : String
deriving DecidableEq, Repr

/-- An entry of the `results` list built in `_evaluate_showdown`. -/
structure ShowdownEntry where
  user_id : Nat
  score : Nat
  desc : String
deriving DecidableEq, Repr

/-- `PokerTable`: the per-table state (constructor lines 336–366).  The deck
is the card list of a `Deck` object; `deal` pops from its END
(`list.pop()`). -/
structure PokerTable where
  table_id : String
  name : String
  small_blind : ℚ
  big_blind : ℚ
  min_buy_in : ℚ
  max_buy_in : ℚ
  max_players : Nat
  players : List (Nat × PlayerState)
  dealer_position : Nat
  current_player : Option Nat
  pot : ℚ
  community_cards : List Card
  game_phase : String
  current_bet : ℚ
  deck : List Card
  winners : List Winner
  hand_result : String
  round_bets : List (Nat × ℚ)
  active_seat_order : List Nat
  players_acted : List Nat
deriving DecidableEq, Repr

/-- In-place update of the record under key `uid` (mutating the dict value
object in Python keeps the key order). -/
def updateP (ps : List (Nat × PlayerState)) (uid : Nat) (f : PlayerState → PlayerState) :
    List (Nat × PlayerState) :=
  ps.map (fun e => if e.1 = uid then (e.1, f e.2) else e)

/-- `del self.players[user_id]` (remaining insertion order preserved). -/
def eraseP (ps : List (Nat × PlayerState)) (uid : Nat) : List (Nat × PlayerState) :=
  ps.filter (fun e => e.1 ≠ uid)

/-- `d[k] = v` on a Python dict: replace in place, else append. -/
def setAssoc (l : List (Nat × ℚ)) (k : Nat) (v : ℚ) : List (Nat × ℚ) :=
  if l.any (fun e => e.1 == k) then
    l.map (fun e => if e.1 = k then (e.1, v) else e)
  else l ++ [(k, v)]

/-- `set.add`: `players_acted` is only ever tested for membership. -/
def insertUnique (l : List Nat) (x : Nat) : List Nat :=
  if x ∈ l then l else l ++ [x]

/-- `self.deck.cards.pop()`: take from the end; fails on an empty deck
(Python `IndexError`). -/
def deal1 (deck : List Card) : Option (Card × List Card) :=
  match deck.getLast? with
  | some c => some (c, deck.dropLast)
  | none => none

/-- `deck.deal(n) = [self.cards.pop() for _ in range(n)]`. -/
def dealN : Nat → List Card → Option (List Card × List Card)
  | 0, d => some ([], d)
  | n + 1, d => do
      let (c, d1) ← deal1 d
      let (cs, d2) ← dealN n d1
      return (c :: cs, d2)

/-- Look up every seat of the hand order; `none` when some user id in
`active_seat_order` is no longer seated (Python raises `KeyError`). -/
def lookupOrder (ps : List (Nat × PlayerState)) : List Nat → Option (List (Nat × PlayerState))
  | [] => some []
  | u :: rest => do
      let p ← ps.lookup u
      let tail ← lookupOrder ps rest
      return (u, p) :: tail

namespace PokerTable

/-- `_post_blind(user_id, amount)` (lines 475–483). -/
def post_blind (t : PokerTable) (uid : Nat) (amount : ℚ) : Option PokerTable := do
  let p ← t.players.lookup uid
  let bet := min p.chips amount
  let p' := { p with
    chips := p.chips - bet,
    current_bet := bet,
    all_in := if p.chips - bet = 0 then true else p.all_in }
  return { t with
    players := updateP t.players uid (fun _ => p'),
    pot := t.pot + bet,
    round_bets := setAssoc t.round_bets uid bet }

/-- The per-player reset-and-deal loop of `start_hand` (lines 448–452):
`cards = deck.deal(2); current_bet = 0; folded = False; all_in = False`. -/
def dealHoleCards (ps : List (Nat × PlayerState)) (deck : List Card) :
    List Nat → Option (List (Nat × PlayerState) × List Card)
  | [] => some (ps, deck)
  | uid :: rest => do
      let _ ← ps.lookup uid
      let (cs, deck') ← dealN 2 deck
      dealHoleCards
        (updateP ps uid (fun p => { p with
          cards := cs, current_bet := 0, folded := false, all_in := false }))
        deck' rest

/-- The main body of `start_hand` (lines 425–473), abstracted over the list
`act` of active seats computed on lines 419–423. -/
def start_hand_go (t : PokerTable) (freshDeck : List Card)
    (act : List (Nat × PlayerState)) : Option PokerTable := do
    let n := act.length
    let order := act.map (fun e => e.1)
    -- dealer rotation: first seat with position ≥ dealer_position, else -1;
    -- then (idx + 1) % n
    let dealerIdx :=
      match act.findIdx? (fun e => decide (t.dealer_position ≤ e.2.position)) with
      | some i => (i + 1) % n
      | none => 0
    let dealerEntry ← act.get? dealerIdx
    let t1 := { t with
      dealer_position := dealerEntry.2.position,
      game_phase := "preflop",
      pot := 0,
      community_cards := [],
      deck := freshDeck,
      winners := [],
      hand_result := "",
      round_bets := order.map (fun u => (u, (0 : ℚ))),
      players_acted := [],
      active_seat_order := order }
    let (ps2, deck2) ← dealHoleCards t1.players t1.deck order
    let t2 := { t1 with players := ps2, deck := deck2 }
    let sbIdx := if n = 2 then dealerIdx else (dealerIdx + 1) % n
    let bbIdx := if n = 2 then (dealerIdx + 1) % 2 else (dealerIdx + 2) % n
    let sbUser ← order.get? sbIdx
    let bbUser ← order.get? bbIdx
    let t3 ← post_blind t2 sbUser t.small_blind
    let t4 ← post_blind t3 bbUser t.big_blind
    let nextUser ← order.get? ((bbIdx + 1) % n)
    return { t4 with current_bet := t.big_blind, current_player := some nextUser }

/-- `start_hand` (lines 417–473).  `Deck()` builds a freshly shuffled deck;
the shuffling randomness is modelled by passing the shuffled card list
`freshDeck` as a parameter. -/
def start_hand (t : PokerTable) (freshDeck : List Card) : Option PokerTable :=
  let act := sortByAsc (fun e => e.2.position)
    (t.players.filter (fun e => !e.2.is_sitting_out && decide (0 < e.2.chips)))
  if act.length < 2 then
    some { t with game_phase := "waiting" }
  else
    start_hand_go t freshDeck act

/-- `_end_hand_winner(winner_id)` (lines 660–665). -/
def end_hand_winner (t : PokerTable) (winner_id : Nat) : Option PokerTable := do
  let _ ← t.players.lookup winner_id
  return { t with
    players := updateP t.players winner_id (fun q => { q with chips := q.chips + t.pot }),
    winners := [⟨winner_id, t.pot, "Opponents Folded"⟩],
    game_phase := "showdown" }

/-- The `results` list of `_evaluate_showdown` (lines 669–674): one entry per
non-folded seat in hand order, scored by the evaluator. -/
def showdownResults (pairs : List (Nat × PlayerState)) (community : List Card) :
    Option (List ShowdownEntry) :=
  match pairs with
  | [] => some []
  | (uid, p) :: rest =>
      if p.folded then showdownResults rest community
      else do
        let (sc, d) ← HandEvaluator.evaluate p.cards community
        let tail ← showdownResults rest community
        return ⟨uid, sc, d⟩ :: tail

/-- The `for w in winners: chips += split_amount` loop (line 689). -/
def creditWinners (ps : List (Nat × PlayerState)) (split : ℚ) :
    List ShowdownEntry → Option (List (Nat × PlayerState))
  | [] => some ps
  | w :: rest => do
      let _ ← ps.lookup w.user_id
      creditWinners (updateP ps w.user_id (fun q => { q with chips := q.chips + split }))
        split rest

/-- `_evaluate_showdown` (lines 667–694).  `results.sort(key=score, reverse=True)`
is the stable descending sort; ties on the best score split the pot by exact
division `self.pot / len(winners)`. -/
def evaluate_showdown (t : PokerTable) : Option PokerTable := do
  let pairs ← lookupOrder t.players t.active_seat_order
  let results ← showdownResults pairs t.community_cards
  let sorted := sortByDesc ShowdownEntry.score results
  match sorted with
  | [] => return t
  | best :: _ =>
      let winners := sorted.filter (fun r => r.score == best.score)
      let split := t.pot / (winners.length : ℚ)
      let ps' ← creditWinners t.players split winners
      return { t with
        players := ps',
        winners := winners.map (fun r => ⟨r.user_id, split, r.desc⟩),
        hand_result := String.intercalate ", " (winners.map (fun r => r.desc)) }

/-- `while len(community) < 5: deal(1)` run-out when everyone is all-in
(lines 655–656). -/
def runOutBoard (t : PokerTable) : Option PokerTable :=
  if t.community_cards.length < 5 then
    match deal1 t.deck with
    | some (c, d) =>
        runOutBoard { t with community_cards := t.community_cards ++ [c], deck := d }
    | none => none
  else some t
termination_by 5 - t.community_cards.length
decreasing_by
  simp only [List.length_append, List.length_cons, List.length_nil]
  omega

/-- Lines 635–658 of `_next_phase`: seat the first non-folded, non-all-in
player clockwise from the dealer, or run out the board to showdown. -/
def setFirstToAct (t : PokerTable) : Option PokerTable := do
  let pairs ← lookupOrder t.players t.active_seat_order
  let n := t.active_seat_order.length
  let start :=
    match pairs.findIdx? (fun e => e.2.position == t.dealer_position) with
    | some i => i + 1
    | none => 0   -- dealer_idx = -1; the scan then covers indices 0..n-1
  let nextPlayer := (List.range n).findSome? (fun j =>
    match pairs.get? ((start + j) % n) with
    | some e => if !e.2.folded && !e.2.all_in then some e.1 else none
    | none => none)
  match nextPlayer with
  | some u => return { t with current_player := some u }
  | none => do
      let t2 ← runOutBoard t
      evaluate_showdown { t2 with game_phase := "showdown" }

/-- The street-reset loop of `_next_phase` (lines 610–616). -/
def resetStreet (ps : List (Nat × PlayerState)) :
    List Nat → Option (List (Nat × PlayerState))
  | [] => some ps
  | uid :: rest => do
      let _ ← ps.lookup uid
      resetStreet (updateP ps uid (fun p => { p with current_bet := 0, last_action := "" }))
        rest

/-- `_next_phase` (lines 608–658). -/
def next_phase (t : PokerTable) : Option PokerTable := do
  let ps1 ← resetStreet t.players t.active_seat_order
  let t1 := { t with players := ps1, current_bet := 0, players_acted := [] }
  if t1.game_phase = "preflop" then do
    let (cs, d) ← dealN 3 t1.deck
    setFirstToAct { t1 with game_phase := "flop", community_cards := cs, deck := d }
  else if t1.game_phase = "flop" then do
    let (cs, d) ← dealN 1 t1.deck
    setFirstToAct { t1 with
      game_phase := "turn", community_cards := t1.community_cards ++ cs, deck := d }
  else if t1.game_phase = "turn" then do
    let (cs, d) ← dealN 1 t1.deck
    setFirstToAct { t1 with
      game_phase := "river", community_cards := t1.community_cards ++ cs, deck := d }
  else if t1.game_phase = "river" then
    evaluate_showdown { t1 with game_phase := "showdown" }
  else
    setFirstToAct t1

/-- `_next_turn` (lines 558–606). -/
def next_turn (t : PokerTable) : Option PokerTable := do
  let pairs ← lookupOrder t.players t.active_seat_order
  let nonFolded := (pairs.filter (fun e => !e.2.folded)).map (fun e => e.1)
  match nonFolded with
  | [w] => end_hand_winner t w
  | _ => do
      let currIdx :=
        match t.current_player with
        | some u => (t.active_seat_order.findIdx? (fun v => v == u)).getD 0
        | none => 0   -- order.index(None) raises; `except: curr_idx = 0`
      let n := t.active_seat_order.length
      let nextPlayer := (List.range' 1 (n - 1)).findSome? (fun i =>
        match pairs.get? ((currIdx + i) % n) with
        | some e => if !e.2.folded && !e.2.all_in then some e.1 else none
        | none => none)
      let allMatched := pairs.all
        (fun e => e.2.folded || e.2.all_in || e.2.current_bet == t.current_bet)
      let allActed := (pairs.filter (fun e => !e.2.folded && !e.2.all_in)).all
        (fun e => t.players_acted.contains e.1)
      if allMatched && allActed then next_phase t
      else return { t with current_player := nextPlayer }

/-- Common tail of every performed action (lines 553–556):
`players_acted.add(user_id); self._next_turn(); return True, "Action accepted"`. -/
def finish_action (t : PokerTable) (uid : Nat) : Option ((Bool × String) × PokerTable) :=
  (next_turn { t with players_acted := insertUnique t.players_acted uid }).map
    (fun t2 => ((true, "Action accepted"), t2))

/-- The `elif action == "raise"` block (lines 530–551), split out so the
acceptance condition can be stated on its own.  `Except.error` is the early
`return False, msg`; `Except.ok` is the fall-through to the common tail. -/
def raise_branch (t : PokerTable) (uid : Nat) (player : PlayerState) (amount : ℚ) :
    Except (Bool × String) PokerTable :=
  if amount < t.current_bet * 2 ∧ amount ≠ player.chips + player.current_bet then
    Except.error (false, "Raise too small. Min: " ++ toString (t.current_bet * 2))
  else
    let toAdd := amount - player.current_bet
    if toAdd > player.chips then Except.error (false, "Not enough chips")
    else
      let chips' := player.chips - toAdd
      let p' := { player with
        chips := chips',
        current_bet := player.current_bet + toAdd,
        last_action := if chips' = 0 then "ALL-IN" else "RAISE",
        all_in := if chips' = 0 then true else player.all_in }
      Except.ok { t with
        players := updateP t.players uid (fun _ => p'),
        pot := t.pot + toAdd,
        current_bet := amount,
        round_bets := setAssoc t.round_bets uid (player.current_bet + toAdd) }

/-- `handle_action` for every action other than sitout/sitin (lines 499–556);
the sitout branch re-enters here with a forced `"fold"`.  An unknown action
string falls through to the common tail, exactly as in the source. -/
def handle_action_main (t : PokerTable) (user_id : Nat) (action : String)
    (amount : ℚ) : Option ((Bool × String) × PokerTable) := do
  let player ← t.players.lookup user_id
  if t.game_phase = "waiting" ∨ t.game_phase = "showdown" then
    return ((false, "Game not active"), t)
  else if ¬t.current_player = some user_id then
    return ((false, "Not your turn"), t)
  else if action = "fold" then
    finish_action { t with
      players := updateP t.players user_id (fun p => { p with
        folded := true, cards := [], last_action := "FOLD" }) } user_id
  else if action = "call" then
    let toCall0 := t.current_bet - player.current_bet
    let isShort := toCall0 > player.chips
    let toCall := if isShort then player.chips else toCall0
    let allIn' := if isShort then true else player.all_in
    let p' := { player with
      chips := player.chips - toCall,
      current_bet := player.current_bet + toCall,
      all_in := allIn',
      last_action := if allIn' then "ALL-IN" else "CALL" }
    finish_action { t with
      players := updateP t.players user_id (fun _ => p'),
      pot := t.pot + toCall,
      round_bets := setAssoc t.round_bets user_id (player.current_bet + toCall) } user_id
  else if action = "check" then
    if player.current_bet < t.current_bet then
      return ((false, "Cannot check, must call"), t)
    else
      finish_action { t with
        players := updateP t.players user_id (fun p => { p with
          last_action := "CHECK" }) } user_id
  else if action = "raise" then
    match raise_branch t user_id player amount with
    | Except.error r => return (r, t)
    | Except.ok t1 => finish_action t1 user_id
  else
    finish_action t user_id

/-- `handle_action(user_id, action, amount=0)` (lines 485–556).  The sitout
branch's recursive `self.handle_action(user_id, "fold")` is routed through
`handle_action_main`, which is exactly what the recursive call evaluates to
("fold" matches neither the sitout nor the sitin branch). -/
def handle_action (t : PokerTable) (user_id : Nat) (action : String)
    (amount : ℚ) : Option ((Bool × String) × PokerTable) := do
  let player ← t.players.lookup user_id
  if action = "sitout" then
    let t1 := { t with
      players := updateP t.players user_id (fun p => { p with is_sitting_out := true }) }
    if t1.game_phase ≠ "waiting" ∧ t1.game_phase ≠ "showdown" ∧ ¬player.folded then do
      let r ← handle_action_main t1 user_id "fold" 0
      return ((true, "Sitting out"), r.2)
    else
      return ((true, "Sitting out"), t1)
  else if action = "sitin" then
    return ((true, "Sitting in"),
      { t with players := updateP t.players user_id (fun p => { p with
          is_sitting_out := false }) })
  else
    handle_action_main t user_id action amount

/-- `remove_player(user_id)` (lines 398–415).  When the departing player held
the action, the attempted courtesy fold runs after the entry was deleted and
hits a `KeyError` (`none`); the source then propagates the exception out of
`remove_player`, so no chips are returned. -/
def remove_player (t : PokerTable) (user_id : Nat) : Option (ℚ × PokerTable) :=
  match t.players.lookup user_id with
  | none => some (0, t)
  | some p =>
      let t1 := { t with players := eraseP t.players user_id }
      let step2 : Option PokerTable :=
        if t1.game_phase ≠ "waiting" ∧ t1.current_player = some user_id then
          (handle_action t1 user_id "fold" 0).map (fun r => r.2)
        else some t1
      match step2 with
      | none => none
      | some t2 =>
          let activeCount := (t2.players.filter (fun e => !e.2.is_sitting_out)).length
          let t3 :=
            if activeCount < 2 then
              { t2 with game_phase := "waiting", pot := 0, community_cards := [] }
            else t2
          some (p.chips, t3)

end PokerTable

/-! ## State snapshots (`get_state`, lines 696–742) -/

/-- `Card.RANKS[rank]`: the wire label of a rank.  (For a rank outside 2..14
the source raises `KeyError`; such a card cannot be produced by `Deck`.) -/
def rankStr : Nat → String
  | 2 => "2" | 3 => "3" | 4 => "4" | 5 => "5" | 6 => "6" | 7 => "7" | 8 => "8"
  | 9 => "9" | 10 => "T" | 11 => "J" | 12 => "Q" | 13 => "K" | 14 => "A"
  | _ => ""

def suitStr : Suit → String
  | .s => "s" | .h => "h" | .d => "d" | .c => "c"

/-- `card.to_dict() = {"rank": ..., "suit": ..., "value": rank}`. -/
structure CardDict where
  rank : String
  suit : String
  value : Nat
deriving DecidableEq, Repr

def Card.to_dict (c : Card) : CardDict := ⟨rankStr c.rank, suitStr c.suit, c.rank⟩

/-- A hidden card, `{"rank": "?", "suit": "?", "value": 0}`. -/
def hiddenCard : CardDict := ⟨"?", "?", 0⟩

/-- One `player_state` entry of the snapshot (lines 710–723). -/
structure PlayerView where
  user_id : Nat
  username : String
  chips : ℚ
  position : Nat
  is_active : Bool
  is_sitting_out : Bool
  current_bet : ℚ
  has_cards : Bool
  cards : List CardDict
  folded : Bool
  all_in : Bool
  last_action : String
deriving DecidableEq, Repr

/-- The whole snapshot dict (lines 726–742). -/
structure TableView where
  table_id : String
  name : String
  small_blind : ℚ
  big_blind : ℚ
  min_buy_in : ℚ
  max_buy_in : ℚ
  max_players : Nat
  players : List PlayerView
  dealer_position : Nat
  current_player : Option Nat
  pot : ℚ
  community_cards : List CardDict
  game_phase : String
  current_bet : ℚ
  winners : List Winner
deriving DecidableEq, Repr

namespace PokerTable

/-- The card-redaction rule of `get_state` (lines 699–708): real cards for
the viewer themselves or at showdown for a non-folded player; `[]` for a
folded player; two hidden placeholders otherwise (or `[]` with no cards). -/
def render_player (t : PokerTable) (for_user : Option Nat) (e : Nat × PlayerState) :
    PlayerView :=
  let uid := e.1
  let p := e.2
  let cards :=
    if for_user = some uid ∨ (t.game_phase = "showdown" ∧ p.folded = false) then
      p.cards.map Card.to_dict
    else if p.folded then []
    else if p.cards = [] then [] else [hiddenCard, hiddenCard]
  { user_id := uid, username := p.username, chips := p.chips,
    position := p.position, is_active := p.is_active,
    is_sitting_out := p.is_sitting_out, current_bet := p.current_bet,
    has_cards := !p.cards.isEmpty, cards := cards, folded := p.folded,
    all_in := p.all_in, last_action := p.last_action }

/-- `get_state(for_user_id=None)` (lines 696–742): a pure snapshot. -/
def get_state (t : PokerTable) (for_user : Option Nat) : TableView :=
  { table_id := t.table_id, name := t.name, small_blind := t.small_blind,
    big_blind := t.big_blind, min_buy_in := t.min_buy_in,
    max_buy_in := t.max_buy_in, max_players := t.max_players,
    players := t.players.map (t.render_player for_user),
    dealer_position := t.dealer_position, current_player := t.current_player,
    pot := t.pot, community_cards := t.community_cards.map Card.to_dict,
    game_phase := t.game_phase, current_bet := t.current_bet,
    winners := t.winners }

end PokerTable

/-- Blank out every player's `cards` array in a snapshot (used to state that
two viewers' snapshots agree everywhere else). -/
def stripCards (v : TableView) : TableView :=
  { v with players := v.players.map (fun e => { e with cards := [] }) }

/-! ## Wallet ledger: `capture_deposit` (`handle_verify_deposit`, lines 1264–1333)

The relevant rows of the `wallets` and `transactions` tables for one user,
and the database core of the handler.  The payment provider's answer is a
parameter (`GetOrder` returning `COMPLETED`, or `APPROVED` followed by a
successful `CaptureOrder`, both reach the crediting branch with
`status = 'COMPLETED'`). -/

/-- One row of `transactions` as used by the deposit flow. -/
structure DepositTx where
  user_id : Nat
  amount : ℚ
  status : String
  paypal_order_id : String
deriving DecidableEq, Repr

/-- The wallet row plus this user's transaction rows. -/
structure WalletDb where
  balance : ℚ
  total_deposited : ℚ
  txs : List DepositTx
deriving DecidableEq, Repr

/-- The crediting core of `handle_verify_deposit` (lines 1284–1324): when the
effective provider status is COMPLETED, it selects the transaction row by
`paypal_order_id = ? AND user_id = ?` — with NO filter on the row's own
`status` — credits `balance` and `total_deposited` by its amount, and marks
every row with that order id `completed`.  Returns the new state and whether
the success reply was sent. -/
def captureDeposit (w : WalletDb) (user : Nat) (orderId : String)
    (providerStatus : String) : WalletDb × Bool :=
  if providerStatus = "COMPLETED" then
    match w.txs.find? (fun tx => tx.paypal_order_id == orderId && tx.user_id == user) with
    | some tx =>
        ({ balance := w.balance + tx.amount,
           total_deposited := w.total_deposited + tx.amount,
           txs := w.txs.map (fun r =>
             if r.paypal_order_id = orderId then { r with status := "completed" } else r) },
         true)
    | none => (w, false)
  else (w, false)

/-- `handle_cancel_deposit` (lines 1335–1370): cancels only a row that is
still `pending` (note the `status = 'pending'` filter that the capture
handler lacks). -/
def cancelDeposit (w : WalletDb) (user : Nat) (orderId : String) : WalletDb × Bool :=
  match w.txs.find? (fun tx => tx.paypal_order_id == orderId && tx.user_id == user
      && tx.status == "pending") with
  | some _ =>
      ({ w with txs := w.txs.map (fun r =>
          if r.paypal_order_id = orderId then { r with status := "cancelled" } else r) },
       true)
  | none => (w, false)

/-! ## Decidable form of the live-turn invariant, and concrete test states -/

/-- The action-holder invariant of a live hand, in decidable form: whenever
the phase is neither `waiting` nor `showdown` and `current_player` is set,
that player is seated (present in `players`) and not folded. -/
def liveTurnOk (t : PokerTable) : Bool :=
  if t.game_phase == "waiting" || t.game_phase == "showdown" then true
  else
    match t.current_player with
    | none => true
    | some uid =>
        match t.players.lookup uid with
        | some p => !p.folded
        | none => false

/-- Discard the table part of a `handle_action` result, keeping the
`(success, message)` reply. -/
def resultFlag (r : Option ((Bool × String) × PokerTable)) : Option (Bool × String) :=
  r.map Prod.fst

/-- A seated player record for test states. -/
def mkPlayer (chips : ℚ) (pos : Nat) (bet : ℚ) (cards : List Card) : PlayerState :=
  { username := "p", chips := chips, position := pos, is_active := true,
    is_sitting_out := false, cards := cards, current_bet := bet,
    folded := false, all_in := false, last_action := "" }

/-- An empty table with blinds 1/2. -/
def baseTable : PokerTable :=
  { table_id := "T", name := "Test", small_blind := 1, big_blind := 2,
    min_buy_in := 40, max_buy_in := 200, max_players := 6, players := [],
    dealer_position := 0, current_player := none, pot := 0,
    community_cards := [], game_phase := "waiting", current_bet := 0,
    deck := [], winners := [], hand_result := "", round_bets := [],
    active_seat_order := [], players_acted := [] }

/-- Heads-up preflop table, blinds just posted (pot = 3), player 1 to act. -/
def tHU : PokerTable :=
  { baseTable with
    players := [(1, mkPlayer 99 0 1 [⟨14, .s⟩, ⟨13, .s⟩]),
                (2, mkPlayer 98 1 2 [⟨2, .d⟩, ⟨7, .c⟩])],
    game_phase := "preflop", current_player := some 1, pot := 3,
    current_bet := 2, round_bets := [(1, 1), (2, 2)],
    active_seat_order := [1, 2],
    deck := [⟨2, .s⟩, ⟨3, .s⟩, ⟨4, .s⟩, ⟨5, .s⟩, ⟨6, .s⟩] }

/-- Heads-up table on the flop, fresh betting round (`current_bet = 0`). -/
def tFlop : PokerTable :=
  { baseTable with
    players := [(1, mkPlayer 100 0 0 [⟨14, .s⟩, ⟨13, .s⟩]),
                (2, mkPlayer 50 1 0 [⟨2, .d⟩, ⟨7, .c⟩])],
    game_phase := "flop", current_player := some 1, pot := 4,
    current_bet := 0, round_bets := [(1, 0), (2, 0)],
    active_seat_order := [1, 2],
    community_cards := [⟨9, .h⟩, ⟨10, .d⟩, ⟨4, .c⟩],
    deck := [⟨2, .s⟩, ⟨3, .s⟩, ⟨4, .s⟩, ⟨5, .s⟩] }

/-- Three seated players, no hand running yet. -/
def tThree : PokerTable :=
  { baseTable with
    players := [(1, mkPlayer 100 0 0 []), (2, mkPlayer 100 1 0 []),
                (3, mkPlayer 100 2 0 [])] }

/-- A deck for a three-player deal (dealing pops from the end). -/
def deckThree : List Card :=
  [⟨2, .s⟩, ⟨3, .s⟩, ⟨4, .s⟩, ⟨5, .s⟩, ⟨6, .s⟩, ⟨7, .s⟩, ⟨8, .s⟩, ⟨9, .s⟩]

/-- `tFlop` after player 1's raise to a total of 1 (the chip movements of the
raise branch, written out). -/
def tFlopRaised : PokerTable :=
  { tFlop with
    players := [(1, { mkPlayer 99 0 1 [⟨14, .s⟩, ⟨13, .s⟩] with last_action := "RAISE" }),
                (2, mkPlayer 50 1 0 [⟨2, .d⟩, ⟨7, .c⟩])],
    pot := 5, current_bet := 1, round_bets := [(1, 1), (2, 0)] }

/-- `tThree` mid-`start_hand`: per-hand state reset and hole cards dealt,
blinds not yet posted. -/
def tThreeMid : PokerTable :=
  { baseTable with
    players := [(1, mkPlayer 100 0 0 [⟨9, .s⟩, ⟨8, .s⟩]),
                (2, mkPlayer 100 1 0 [⟨7, .s⟩, ⟨6, .s⟩]),
                (3, mkPlayer 100 2 0 [⟨5, .s⟩, ⟨4, .s⟩])],
    dealer_position := 1, game_phase := "preflop", pot := 0,
    deck := [⟨2, .s⟩, ⟨3, .s⟩],
    round_bets := [(1, 0), (2, 0), (3, 0)],
    active_seat_order := [1, 2, 3], players_acted := [] }

/-- `tThreeMid` after user 3 posts the small blind of 1. -/
def tThreeSB : PokerTable :=
  { tThreeMid with
    players := [(1, mkPlayer 100 0 0 [⟨9, .s⟩, ⟨8, .s⟩]),
                (2, mkPlayer 100 1 0 [⟨7, .s⟩, ⟨6, .s⟩]),
                (3, mkPlayer 99 2 1 [⟨5, .s⟩, ⟨4, .s⟩])],
    pot := 1, round_bets := [(1, 0), (2, 0), (3, 1)] }

/-- `tThreeSB` after user 1 posts the big blind of 2. -/
def tThreeBB : PokerTable :=
  { tThreeSB with
    players := [(1, mkPlayer 98 0 2 [⟨9, .s⟩, ⟨8, .s⟩]),
                (2, mkPlayer 100 1 0 [⟨7, .s⟩, ⟨6, .s⟩]),
                (3, mkPlayer 99 2 1 [⟨5, .s⟩, ⟨4, .s⟩])],
    pot := 3, round_bets := [(1, 2), (2, 0), (3, 1)] }

/-- `tThree` after `start_hand` with `deckThree`: dealer moved to seat 1,
seat 2 (user 3) posted the small blind, seat 0 (user 1) the big blind, and
user 2 (the dealer) is first to act. -/
def tThreeDealt : PokerTable :=
  { baseTable with
    players := [(1, mkPlayer 98 0 2 [⟨9, .s⟩, ⟨8, .s⟩]),
                (2, mkPlayer 100 1 0 [⟨7, .s⟩, ⟨6, .s⟩]),
                (3, mkPlayer 99 2 1 [⟨5, .s⟩, ⟨4, .s⟩])],
    dealer_position := 1, game_phase := "preflop", pot := 3,
    current_bet := 2, current_player := some 2,
    deck := [⟨2, .s⟩, ⟨3, .s⟩],
    round_bets := [(1, 2), (2, 0), (3, 1)],
    active_seat_order := [1, 2, 3], players_acted := [] }

/-- `tThreeDealt` after user 3 (not the action holder) sends `sitout`: the
flag is set but the attempted courtesy fold is rejected with
"Not your turn", leaving user 3 unfolded. -/
def tThreeSit : PokerTable :=
  { tThreeDealt with
    players := [(1, mkPlayer 98 0 2 [⟨9, .s⟩, ⟨8, .s⟩]),
                (2, mkPlayer 100 1 0 [⟨7, .s⟩, ⟨6, .s⟩]),
                (3, { mkPlayer 99 2 1 [⟨5, .s⟩, ⟨4, .s⟩] with is_sitting_out := true })] }

/-- `tThreeSit` after user 2 folds: the action passes to user 3, who is
sitting out. -/
def tThreeFold : PokerTable :=
  { tThreeSit with
    players := [(1, mkPlayer 98 0 2 [⟨9, .s⟩, ⟨8, .s⟩]),
                (2, { mkPlayer 100 1 0 [] with folded := true, last_action := "FOLD" }),
                (3, { mkPlayer 99 2 1 [⟨5, .s⟩, ⟨4, .s⟩] with is_sitting_out := true })],
    players_acted := [2], current_player := some 3 }

/-- Three players reaching showdown on a board that is a royal flush: all
three tie, with a pot of 10 that does not divide evenly by 3. -/
def tRoyalBoard : PokerTable :=
  { baseTable with
    players := [(1, mkPlayer 90 0 0 [⟨2, .h⟩, ⟨3, .h⟩]),
                (2, mkPlayer 90 1 0 [⟨2, .d⟩, ⟨3, .d⟩]),
                (3, mkPlayer 90 2 0 [⟨2, .c⟩, ⟨3, .c⟩])],
    game_phase := "river", current_player := none, pot := 10,
    community_cards := [⟨14, .s⟩, ⟨13, .s⟩, ⟨12, .s⟩, ⟨11, .s⟩, ⟨10, .s⟩],
    active_seat_order := [1, 2, 3] }

/-- `tRoyalBoard` after `_evaluate_showdown`: a three-way tie on the board
royal flush; each winner is credited exactly `pot / 3 = 10/3`. -/
def tRoyalAfter : PokerTable :=
  { tRoyalBoard with
    players := [(1, mkPlayer (90 + 10 / ((3 : Nat) : ℚ)) 0 0 [⟨2, .h⟩, ⟨3, .h⟩]),
                (2, mkPlayer (90 + 10 / ((3 : Nat) : ℚ)) 1 0 [⟨2, .d⟩, ⟨3, .d⟩]),
                (3, mkPlayer (90 + 10 / ((3 : Nat) : ℚ)) 2 0 [⟨2, .c⟩, ⟨3, .c⟩])],
    winners := [⟨1, 10 / ((3 : Nat) : ℚ), "Royal Flush"⟩,
                ⟨2, 10 / ((3 : Nat) : ℚ), "Royal Flush"⟩,
                ⟨3, 10 / ((3 : Nat) : ℚ), "Royal Flush"⟩],
    hand_result := "Royal Flush, Royal Flush, Royal Flush" }

/-! ## Lemmas about the sorting and grouping helpers -/

theorem insertByDesc_perm (key : α → Nat) (x : α) (l : List α) :
    (insertByDesc key x l).Perm (x :: l) := by
  induction l with
  | nil => exact List.Perm.refl _
  | cons y ys ih =>
      rw [insertByDesc]
      split

      · exact (ih.cons y).trans (List.Perm.swap x y ys)
      · exact List.Perm.refl _

theorem insertByAsc_perm (key : α → Nat) (x : α) (l : List α) :
    (insertByAsc key x l).Perm (x :: l) := by
  induction l with
  | nil => exact List.Perm.refl _
  | cons y ys ih =>
      rw [insertByAsc]
      split

      · exact (ih.cons y).trans (List.Perm.swap x y ys)
      · exact List.Perm.refl _

theorem foldl_insert_perm (ins : α → List α → List α)
    (hins : ∀ x l, (ins x l).Perm (x :: l)) :
    ∀ (l acc : List α), (l.foldl (fun a x => ins x a) acc).Perm (acc ++ l) := by
  intro l
  induction l with
  | nil => intro acc; simp
  | cons x xs ih =>
      intro acc
      rw [List.foldl_cons]
      refine (ih (ins x acc)).trans ?_
      refine ((hins x acc).append_right xs).trans ?_
      exact List.perm_middle.symm

theorem sortByDesc_perm (key : α → Nat) (l : List α) : (sortByDesc key l).Perm l :=
  foldl_insert_perm _ (insertByDesc_perm key) l []

theorem sortByAsc_perm (key : α → Nat) (l : List α) : (sortByAsc key l).Perm l :=
  foldl_insert_perm _ (insertByAsc_perm key) l []

theorem sortByDesc_mem (key : α → Nat) (l : List α) (a : α) :
    a ∈ sortByDesc key l ↔ a ∈ l :=
  (sortByDesc_perm key l).mem_iff

theorem sortByDesc_eq_nil_iff (key : α → Nat) (l : List α) :
    sortByDesc key l = [] ↔ l = [] := by
  constructor
  · intro h
    have := (sortByDesc_perm key l).length_eq
    rw [h] at this
    exact List.length_eq_zero.mp this.symm
  · rintro rfl; rfl

theorem firstOccurAux_mem [DecidableEq α] (l : List α) :
    ∀ (seen : List α) (x : α), x ∈ firstOccurAux seen l ↔ x ∈ l ∧ x ∉ seen := by
  induction l with
  | nil => intro seen x; simp [firstOccurAux]
  | cons y ys ih =>
      intro seen x
      rw [firstOccurAux]
      by_cases hy : y ∈ seen
      · rw [if_pos hy, ih]
        constructor
        · rintro ⟨h1, h2⟩
          exact ⟨List.mem_cons_of_mem _ h1, h2⟩
        · rintro ⟨h1, h2⟩
          rcases List.mem_cons.mp h1 with rfl | h1'
          · exact absurd hy h2
          · exact ⟨h1', h2⟩
      · rw [if_neg hy, List.mem_cons, ih]
        constructor
        · rintro (rfl | ⟨h1, h2⟩)
          · exact ⟨List.mem_cons_self _ _, hy⟩
          · refine ⟨List.mem_cons_of_mem _ h1, fun hs => h2 (List.mem_cons_of_mem _ hs)⟩
        · rintro ⟨h1, h2⟩
          rcases List.mem_cons.mp h1 with rfl | h1'
          · exact Or.inl rfl
          · by_cases hxy : x = y
            · exact Or.inl hxy
            · exact Or.inr ⟨h1', by
                intro hmem
                rcases List.mem_cons.mp hmem with h' | h'
                · exact hxy h'
                · exact h2 h'⟩

theorem firstOccurAux_nodup [DecidableEq α] (l : List α) :
    ∀ seen : List α, (firstOccurAux seen l).Nodup := by
  induction l with
  | nil => intro seen; simp [firstOccurAux]
  | cons y ys ih =>
      intro seen
      rw [firstOccurAux]
      by_cases hy : y ∈ seen
      · rw [if_pos hy]; exact ih seen
      · rw [if_neg hy]
        refine List.nodup_cons.mpr ⟨?_, ih (y :: seen)⟩
        intro hmem
        exact ((firstOccurAux_mem ys (y :: seen) y).mp hmem).2 (List.mem_cons_self _ _)

theorem firstOccur_mem [DecidableEq α] (l : List α) (x : α) :
    x ∈ firstOccur l ↔ x ∈ l := by
  rw [firstOccur, firstOccurAux_mem]
  simp

theorem firstOccur_subset [DecidableEq α] (l : List α) (x : α) (h : x ∈ firstOccur l) :
    x ∈ l := (firstOccur_mem l x).mp h

theorem firstOccur_nodup [DecidableEq α] (l : List α) : (firstOccur l).Nodup :=
  firstOccurAux_nodup l []

theorem uniqueRanksOf_mem (cards : List Card) (r : Nat) :
    r ∈ uniqueRanksOf cards ↔ ∃ c ∈ cards, c.rank = r := by
  rw [uniqueRanksOf, sortByDesc_mem, firstOccur_mem, List.mem_map]

theorem uniqueRanksOf_nodup (cards : List Card) : (uniqueRanksOf cards).Nodup :=
  (sortByDesc_perm id _).nodup_iff.mpr (firstOccur_nodup _)

theorem rank_mem_uniqueRanksOf (cards : List Card) (c : Card) (hc : c ∈ cards) :
    c.rank ∈ uniqueRanksOf cards :=
  (uniqueRanksOf_mem cards c.rank).mpr ⟨c, hc, rfl⟩

theorem straightWindow_subset (l : List Nat) :
    ∀ w, straightWindow l = some w → ∀ x ∈ w, x ∈ l := by
  induction l with
  | nil => intro w h; simp [straightWindow] at h
  | cons a rest ih =>
      intro w h x hx
      rcases rest with _ | ⟨b, _ | ⟨c, _ | ⟨d, _ | ⟨e, tail⟩⟩⟩⟩
      · simp [straightWindow] at h
      · simp [straightWindow] at h
      · simp [straightWindow] at h
      · simp [straightWindow] at h
      · rw [straightWindow] at h
        split at h
        · obtain rfl : [a, b, c, d, e] = w := Option.some.inj h
          fin_cases hx <;> simp
        · exact List.mem_cons_of_mem _ (ih w h x hx)


theorem straightRanksOf_le (ur : List Nat) (h : ∀ r ∈ ur, r ≤ 14) :
    ∀ r ∈ straightRanksOf ur, r ≤ 14 := by
  intro r hr
  rw [straightRanksOf] at hr
  split at hr
  · next w hw => exact h r (straightWindow_subset _ _ hw r hr)
  · split at hr
    · fin_cases hr <;> norm_num
    · simp at hr

theorem ranksWithCount_mem (cards : List Card) (n r : Nat) :
    r ∈ ranksWithCount cards n ↔ r ∈ uniqueRanksOf cards ∧ rankCount cards r = n := by
  rw [ranksWithCount, sortByDesc_mem, List.mem_filter]
  simp

theorem ranksWithCount_nodup (cards : List Card) (n : Nat) :
    (ranksWithCount cards n).Nodup :=
  (sortByDesc_perm id _).nodup_iff.mpr ((uniqueRanksOf_nodup cards).filter _)

theorem ranksWithCount_eq_nil_iff (cards : List Card) (n : Nat) :
    ranksWithCount cards n = [] ↔
      ∀ r ∈ uniqueRanksOf cards, rankCount cards r ≠ n := by
  rw [ranksWithCount, sortByDesc_eq_nil_iff, List.filter_eq_nil_iff]
  simp

theorem weightedFrom_lt (l : List Nat) :
    ∀ e, (∀ k ∈ l, k ≤ 14) → l.length ≤ e + 1 → weightedFrom e l < 15 * 100 ^ e := by
  induction l with
  | nil => intro e _ _; rw [weightedFrom]; positivity
  | cons k rest ih =>
      intro e hk hlen
      rw [weightedFrom]
      have hk14 : k ≤ 14 := hk k (List.mem_cons_self _ _)
      cases e with
      | zero =>
          have hrest : rest = [] := by
            cases rest with
            | nil => rfl
            | cons a t => simp at hlen
          subst hrest
          simp [weightedFrom]
          omega
      | succ e' =>
          have h1 : weightedFrom e' rest < 15 * 100 ^ e' :=
            ih e' (fun x hx => hk x (List.mem_cons_of_mem _ hx)) (by simpa using hlen)
          have h2 : k * 100 ^ e' ≤ 14 * 100 ^ e' := mul_le_mul_right' hk14 _
          simp only [Nat.add_sub_cancel]
          rw [pow_succ]
          nlinarith [pow_pos (show (0:Nat) < 100 by norm_num) e']

/-! ## The category-band property of the evaluator score -/

theorem rank_le_of_mem_rwc (cards : List Card) (n r : Nat)
    (hc : ∀ c ∈ cards, c.rank ≤ 14) (h : r ∈ ranksWithCount cards n) : r ≤ 14 := by
  obtain ⟨hur, _⟩ := (ranksWithCount_mem cards n r).mp h
  obtain ⟨c, hcm, rfl⟩ := (uniqueRanksOf_mem cards r).mp hur
  exact hc c hcm

theorem max?_mem_nat (l : List Nat) (a : Nat) (h : l.max? = some a) : a ∈ l :=
  List.max?_mem (fun _ _ => max_choice _ _) h

theorem weighted_ranks_lt (cards sub : List Card) (hc : ∀ c ∈ cards, c.rank ≤ 14)
    (hsub : ∀ c ∈ sub, c ∈ cards) (hlen : sub.length ≤ 5) :
    weightedFrom 4 (sub.map Card.rank) < 1500000000 := by
  have := weightedFrom_lt (sub.map Card.rank) 4
    (by
      intro k hk
      obtain ⟨c, hcm, rfl⟩ := List.mem_map.mp hk
      exact hc c (hsub c hcm))
    (by simpa using hlen)
  norm_num at this
  exact this

theorem evalPostSF_band (cards : List Card) (fSuit : Option Suit)
    (ur sr : List Nat)
    (hur : ∀ r ∈ ur, r ≤ 14)
    (hsr : ∀ r ∈ sr, r ≤ 14)
    (hc : ∀ c ∈ cards, c.rank ≤ 14) :
    ∀ s cat, evalPostSF cards fSuit ur sr = some (s, cat) →
      ∃ k, catIdx cat = some k ∧ k * BASE ≤ s ∧ s < (k + 1) * BASE := by
  intro s cat hev
  have e4 : (100 : Nat) ^ 4 = 100000000 := by norm_num
  have e3 : (100 : Nat) ^ 3 = 1000000 := by norm_num
  have e2 : (100 : Nat) ^ 2 = 10000 := by norm_num
  simp only [evalPostSF] at hev
  rcases h4 : ranksWithCount cards 4 with _ | ⟨q, qs⟩ <;> simp only [h4] at hev
  case cons =>
    -- Four of a Kind
    have hq : q ≤ 14 :=
      rank_le_of_mem_rwc cards 4 q hc (h4 ▸ List.mem_cons_self _ _)
    rcases hmax : (ur.filter (fun r => r ≠ q)).max? with _ | kicker <;>
      simp only [hmax] at hev
    · exact Option.noConfusion hev
    · have hkick : kicker ≤ 14 :=
        hur kicker (List.mem_of_mem_filter (max?_mem_nat _ _ hmax))
      simp only [Option.some.injEq, Prod.mk.injEq] at hev
      obtain ⟨rfl, rfl⟩ := hev
      exact ⟨7, rfl, by simp only [BASE, e4, e3]; omega, by simp only [BASE, e4, e3]; omega⟩
  case nil =>
  rcases h3 : ranksWithCount cards 3 with _ | ⟨t1, ts⟩ <;> simp only [h3] at hev
  case cons =>
    have ht1 : t1 ≤ 14 :=
      rank_le_of_mem_rwc cards 3 t1 hc (h3 ▸ List.mem_cons_self _ _)
    rcases ts with _ | ⟨t2, ts2⟩
    case cons =>
      -- Full House via second trips
      have ht2 : t2 ≤ 14 :=
        rank_le_of_mem_rwc cards 3 t2 hc (h3 ▸ List.mem_cons_of_mem _ (List.mem_cons_self _ _))
      simp only [Option.some.injEq, Prod.mk.injEq] at hev
      obtain ⟨rfl, rfl⟩ := hev
      exact ⟨6, rfl, by simp only [BASE, e4, e3]; omega, by simp only [BASE, e4, e3]; omega⟩
    case nil =>
    rcases h2p : ranksWithCount cards 2 with _ | ⟨p, ps⟩ <;> simp only [h2p] at hev
    case cons =>
      -- Full House via trips + pair
      have hp : p ≤ 14 :=
        rank_le_of_mem_rwc cards 2 p hc (h2p ▸ List.mem_cons_self _ _)
      simp only [Option.some.injEq, Prod.mk.injEq] at hev
      obtain ⟨rfl, rfl⟩ := hev
      exact ⟨6, rfl, by simp only [BASE, e4, e3]; omega, by simp only [BASE, e4, e3]; omega⟩
    case nil =>
    rcases hfs : fSuit with _ | st <;> simp only [hfs] at hev
    case some =>
      -- Flush
      have hwf := weighted_ranks_lt cards ((cards.filter (fun c => c.suit == st)).take 5) hc
        (fun c hcm => List.mem_of_mem_filter (List.mem_of_mem_take hcm))
        (List.length_take_le _ _)
      simp only [Option.some.injEq, Prod.mk.injEq] at hev
      obtain ⟨rfl, rfl⟩ := hev
      exact ⟨5, rfl, by simp only [BASE]; omega, by simp only [BASE]; omega⟩
    case none =>
    rcases hsr0 : sr with _ | ⟨s0, stail⟩ <;> simp only [hsr0] at hev
    case cons =>
      -- Straight
      have hs0 : s0 ≤ 14 := hsr s0 (hsr0 ▸ List.mem_cons_self _ _)
      simp only [Option.some.injEq, Prod.mk.injEq] at hev
      obtain ⟨rfl, rfl⟩ := hev
      exact ⟨4, rfl, by simp only [BASE, e4]; omega, by simp only [BASE, e4]; omega⟩
    case nil =>
      -- Three of a Kind
      rcases hsort : sortByDesc id (ur.filter (fun r => r ≠ t1)) with _ | ⟨k1, _ | ⟨k2, krest⟩⟩ <;>
        simp only [hsort] at hev
      · exact Option.noConfusion hev
      · exact Option.noConfusion hev
      · have hk1 : k1 ≤ 14 := hur k1 (List.mem_of_mem_filter
          ((sortByDesc_mem id _ k1).mp (hsort ▸ List.mem_cons_self _ _)))
        have hk2 : k2 ≤ 14 := hur k2 (List.mem_of_mem_filter
          ((sortByDesc_mem id _ k2).mp (hsort ▸ List.mem_cons_of_mem _ (List.mem_cons_self _ _))))
        simp only [Option.some.injEq, Prod.mk.injEq] at hev
        obtain ⟨rfl, rfl⟩ := hev
        exact ⟨3, rfl, by simp only [BASE, e4, e3, e2]; omega,
          by simp only [BASE, e4, e3, e2]; omega⟩
  case nil =>
  rcases hfs : fSuit with _ | st <;> simp only [hfs] at hev
  case some =>
    -- Flush (no trips present)
    have hwf := weighted_ranks_lt cards ((cards.filter (fun c => c.suit == st)).take 5) hc
      (fun c hcm => List.mem_of_mem_filter (List.mem_of_mem_take hcm))
      (List.length_take_le _ _)
    simp only [Option.some.injEq, Prod.mk.injEq] at hev
    obtain ⟨rfl, rfl⟩ := hev
    exact ⟨5, rfl, by simp only [BASE]; omega, by simp only [BASE]; omega⟩
  case none =>
  rcases hsr0 : sr with _ | ⟨s0, stail⟩ <;> simp only [hsr0] at hev
  case cons =>
    have hs0 : s0 ≤ 14 := hsr s0 (hsr0 ▸ List.mem_cons_self _ _)
    simp only [Option.some.injEq, Prod.mk.injEq] at hev
    obtain ⟨rfl, rfl⟩ := hev
    exact ⟨4, rfl, by simp only [BASE, e4]; omega, by simp only [BASE, e4]; omega⟩
  case nil =>
  rcases h2p : ranksWithCount cards 2 with _ | ⟨p1, _ | ⟨p2, ps2⟩⟩ <;> simp only [h2p] at hev
  · -- High Card
    have hwf := weighted_ranks_lt cards (cards.take 5) hc
      (fun c hcm => List.mem_of_mem_take hcm) (List.length_take_le _ _)
    simp only [Option.some.injEq, Prod.mk.injEq] at hev
    obtain ⟨rfl, rfl⟩ := hev
    exact ⟨0, rfl, Nat.zero_le _, by simp only [BASE]; omega⟩
  · -- One Pair
    have hp1 : p1 ≤ 14 :=
      rank_le_of_mem_rwc cards 2 p1 hc (h2p ▸ List.mem_cons_self _ _)
    have hwf := weightedFrom_lt ((sortByDesc id (ur.filter (fun r => r ≠ p1))).take 3) 3
      (by
        intro k hk
        exact hur k (List.mem_of_mem_filter
          ((sortByDesc_mem id _ k).mp (List.mem_of_mem_take hk))))
      (by simp)
    norm_num [ne_eq, decide_not] at hwf
    simp only [Option.some.injEq, Prod.mk.injEq] at hev
    obtain ⟨rfl, rfl⟩ := hev
    exact ⟨1, rfl, by simp only [BASE, e4, ne_eq, decide_not]; omega,
      by simp only [BASE, e4, ne_eq, decide_not]; omega⟩
  · -- Two Pair
    have hp1 : p1 ≤ 14 :=
      rank_le_of_mem_rwc cards 2 p1 hc (h2p ▸ List.mem_cons_self _ _)
    have hp2 : p2 ≤ 14 :=
      rank_le_of_mem_rwc cards 2 p2 hc (h2p ▸ List.mem_cons_of_mem _ (List.mem_cons_self _ _))
    rcases hmax : (ur.filter (fun r => r ≠ p1 ∧ r ≠ p2)).max? with _ | kicker <;>
      simp only [hmax] at hev
    · exact Option.noConfusion hev
    · have hkick : kicker ≤ 14 :=
        hur kicker (List.mem_of_mem_filter (max?_mem_nat _ _ hmax))
      simp only [Option.some.injEq, Prod.mk.injEq] at hev
      obtain ⟨rfl, rfl⟩ := hev
      exact ⟨2, rfl, by simp only [BASE, e4, e3, e2]; omega,
        by simp only [BASE, e4, e3, e2]; omega⟩

/-- Every value returned by `evaluate` on a nonempty input lies inside the
band of its category: `k·BASE ≤ score < (k+1)·BASE` where `k` is the
category's index. -/
theorem evaluate_band (hole comm : List Card) (hne : hole ++ comm ≠ [])
    (hr : ∀ c ∈ hole ++ comm, c.rank ≤ 14) (s : Nat) (cat : String)
    (hev : HandEvaluator.evaluate hole comm = some (s, cat)) :
    ∃ k, catIdx cat = some k ∧ k * BASE ≤ s ∧ s < (k + 1) * BASE := by
  simp only [HandEvaluator.evaluate] at hev
  rw [if_neg hne] at hev
  have hc14 : ∀ c ∈ sortByDesc Card.rank (hole ++ comm), c.rank ≤ 14 := by
    intro c hcm
    exact hr c ((sortByDesc_perm Card.rank _).mem_iff.mp hcm)
  set cards := sortByDesc Card.rank (hole ++ comm) with hcards
  have hur14 : ∀ r ∈ uniqueRanksOf cards, r ≤ 14 := by
    intro r hrm
    obtain ⟨c, hcm, rfl⟩ := (uniqueRanksOf_mem _ _).mp hrm
    exact hc14 c hcm
  have hsr14 : ∀ r ∈ straightRanksOf (uniqueRanksOf cards), r ≤ 14 :=
    straightRanksOf_le _ hur14
  rcases hfs : flushSuit cards with _ | st <;> simp only [hfs] at hev
  case none =>
    exact evalPostSF_band cards none _ _ hur14 hsr14 hc14 s cat hev
  case some =>
    rcases hsf : straightRanksOf (uniqueRanksOf (cards.filter (fun c => c.suit == st)))
      with _ | ⟨sf0, sfRest⟩ <;> simp only [hsf] at hev
    case nil =>
      exact evalPostSF_band cards (some st) _ _ hur14 hsr14 hc14 s cat hev
    case cons =>
      have hsf0 : sf0 ≤ 14 := by
        have hsub14 : ∀ r ∈ uniqueRanksOf (cards.filter (fun c => c.suit == st)), r ≤ 14 := by
          intro r hrm
          obtain ⟨c, hcm, rfl⟩ := (uniqueRanksOf_mem _ _).mp hrm
          exact hc14 c (List.mem_of_mem_filter hcm)
        exact straightRanksOf_le _ hsub14 sf0 (hsf ▸ List.mem_cons_self _ _)
      split at hev
      · simp only [Option.some.injEq, Prod.mk.injEq] at hev
        obtain ⟨rfl, rfl⟩ := hev
        exact ⟨9, rfl, le_refl _, by simp only [BASE]; omega⟩
      · simp only [Option.some.injEq, Prod.mk.injEq] at hev
        obtain ⟨rfl, rfl⟩ := hev
        exact ⟨8, rfl, by simp only [BASE]; omega, by simp only [BASE]; omega⟩

/-! ## Totality of the evaluator on 5–7 cards -/

theorem rankCount_eq_length_of_all (cards : List Card) (r : Nat)
    (h : ∀ c ∈ cards, c.rank = r) : rankCount cards r = cards.length := by
  rw [rankCount, List.filter_eq_self.mpr]
  intro c hc
  simpa using h c hc

theorem length_eq_two_counts (l : List Card) (a b : Nat) (hab : a ≠ b)
    (hall : ∀ c ∈ l, c.rank = a ∨ c.rank = b) :
    l.length = rankCount l a + rankCount l b := by
  induction l with
  | nil => rfl
  | cons c t ih =>
      have ht : ∀ x ∈ t, x.rank = a ∨ x.rank = b :=
        fun x hx => hall x (List.mem_cons_of_mem _ hx)
      rcases hall c (List.mem_cons_self _ _) with hca | hcb
      · have h1 : rankCount (c :: t) a = rankCount t a + 1 := by
          simp [rankCount, List.filter_cons, hca]
        have h2 : rankCount (c :: t) b = rankCount t b := by
          simp [rankCount, List.filter_cons, hca, beq_iff_eq, hab]
        simp only [List.length_cons, h1, h2]
        have := ih ht
        omega
      · have h1 : rankCount (c :: t) b = rankCount t b + 1 := by
          simp [rankCount, List.filter_cons, hcb]
        have h2 : rankCount (c :: t) a = rankCount t a := by
          simp [rankCount, List.filter_cons, hcb, beq_iff_eq, Ne.symm hab]
        simp only [List.length_cons, h1, h2]
        have := ih ht
        omega

theorem max?_isSome_of_mem (l : List Nat) (x : Nat) (hx : x ∈ l) :
    ∃ m, l.max? = some m := by
  rcases hm : l.max? with _ | m
  · rw [List.max?_eq_none_iff] at hm
    rw [hm] at hx
    simp at hx
  · exact ⟨m, rfl⟩

theorem evalPostSF_total (cards : List Card) (fSuit : Option Suit) (sr : List Nat)
    (h5 : 5 ≤ cards.length) (h7 : cards.length ≤ 7) :
    ∃ r, evalPostSF cards fSuit (uniqueRanksOf cards) sr = some r := by
  rcases h4 : ranksWithCount cards 4 with _ | ⟨q, qs⟩
  case cons =>
    have hq4 : rankCount cards q = 4 :=
      ((ranksWithCount_mem cards 4 q).mp (h4 ▸ List.mem_cons_self _ _)).2
    have hex : ∃ c ∈ cards, c.rank ≠ q := by
      by_contra hno
      push_neg at hno
      have := rankCount_eq_length_of_all cards q hno
      omega
    obtain ⟨c, hcm, hcq⟩ := hex
    have hmem : c.rank ∈ (uniqueRanksOf cards).filter (fun r => r ≠ q) :=
      List.mem_filter.mpr ⟨rank_mem_uniqueRanksOf _ _ hcm, by simpa using hcq⟩
    obtain ⟨m, hm⟩ := max?_isSome_of_mem _ _ hmem
    simp only [evalPostSF, h4, hm]
    exact ⟨_, rfl⟩
  case nil =>
  rcases h3 : ranksWithCount cards 3 with _ | ⟨t1, ts⟩
  case cons =>
    rcases ts with _ | ⟨t2, ts2⟩
    case cons =>
      simp only [evalPostSF, h4, h3]
      exact ⟨_, rfl⟩
    case nil =>
      rcases h2p : ranksWithCount cards 2 with _ | ⟨p, ps⟩
      case cons =>
        simp only [evalPostSF, h4, h3, h2p]
        exact ⟨_, rfl⟩
      case nil =>
        rcases fSuit with _ | st
        case some =>
          simp only [evalPostSF, h4, h3, h2p]
          exact ⟨_, rfl⟩
        case none =>
        rcases sr with _ | ⟨s0, stail⟩
        case cons =>
          simp only [evalPostSF, h4, h3, h2p]
          exact ⟨_, rfl⟩
        case nil =>
        have ht13 : rankCount cards t1 = 3 :=
          ((ranksWithCount_mem cards 3 t1).mp (h3 ▸ List.mem_cons_self _ _)).2
        rcases hsort : sortByDesc id ((uniqueRanksOf cards).filter (fun r => r ≠ t1))
          with _ | ⟨k1, _ | ⟨k2, krest⟩⟩
        · exfalso
          have hfe : (uniqueRanksOf cards).filter (fun r => r ≠ t1) = [] := by
            have hl := (sortByDesc_perm id ((uniqueRanksOf cards).filter (fun r => r ≠ t1))).length_eq
            rw [hsort] at hl
            exact List.length_eq_zero.mp hl.symm
          have hall : ∀ c ∈ cards, c.rank = t1 := by
            intro c hc
            by_contra hne2
            have hm2 : c.rank ∈ (uniqueRanksOf cards).filter (fun r => r ≠ t1) :=
              List.mem_filter.mpr ⟨rank_mem_uniqueRanksOf _ _ hc, by simpa using hne2⟩
            rw [hfe] at hm2
            simp at hm2
          have := rankCount_eq_length_of_all cards t1 hall
          omega
        · exfalso
          have hfk : (uniqueRanksOf cards).filter (fun r => r ≠ t1) = [k1] :=
            List.perm_singleton.mp
              ((sortByDesc_perm id _).symm.trans (by rw [hsort]))
          have hk1f : k1 ∈ (uniqueRanksOf cards).filter (fun r => r ≠ t1) := by
            rw [hfk]
            exact List.mem_cons_self _ _
          have hk1ur : k1 ∈ uniqueRanksOf cards := (List.mem_filter.mp hk1f).1
          have hk1ne : k1 ≠ t1 := by
            have := (List.mem_filter.mp hk1f).2
            simpa using this
          have hall2 : ∀ c ∈ cards, c.rank = t1 ∨ c.rank = k1 := by
            intro c hc
            by_cases he : c.rank = t1
            · exact Or.inl he
            · right
              have hm2 : c.rank ∈ (uniqueRanksOf cards).filter (fun r => r ≠ t1) :=
                List.mem_filter.mpr ⟨rank_mem_uniqueRanksOf _ _ hc, by simpa using he⟩
              rw [hfk] at hm2
              simpa using hm2
          have hlen2 := length_eq_two_counts cards t1 k1 (Ne.symm hk1ne) hall2
          have h234 : rankCount cards k1 = 2 ∨ rankCount cards k1 = 3 ∨
              rankCount cards k1 = 4 := by omega
          rcases h234 with h2c | h3c | h4c
          · have hmm : k1 ∈ ranksWithCount cards 2 :=
              (ranksWithCount_mem _ _ _).mpr ⟨hk1ur, h2c⟩
            rw [h2p] at hmm
            simp at hmm
          · have hmm : k1 ∈ ranksWithCount cards 3 :=
              (ranksWithCount_mem _ _ _).mpr ⟨hk1ur, h3c⟩
            rw [h3] at hmm
            simp at hmm
            exact hk1ne hmm
          · have hmm : k1 ∈ ranksWithCount cards 4 :=
              (ranksWithCount_mem _ _ _).mpr ⟨hk1ur, h4c⟩
            rw [h4] at hmm
            simp at hmm
        · simp only [evalPostSF, h4, h3, h2p, hsort]
          exact ⟨_, rfl⟩
  case nil =>
  rcases fSuit with _ | st
  case some =>
    simp only [evalPostSF, h4, h3]
    exact ⟨_, rfl⟩
  case none =>
  rcases sr with _ | ⟨s0, stail⟩
  case cons =>
    simp only [evalPostSF, h4, h3]
    exact ⟨_, rfl⟩
  case nil =>
  rcases h2p : ranksWithCount cards 2 with _ | ⟨p1, _ | ⟨p2, ps2⟩⟩
  · simp only [evalPostSF, h4, h3, h2p]
    exact ⟨_, rfl⟩
  · simp only [evalPostSF, h4, h3, h2p]
    exact ⟨_, rfl⟩
  · have hp1c : rankCount cards p1 = 2 :=
      ((ranksWithCount_mem cards 2 p1).mp (h2p ▸ List.mem_cons_self _ _)).2
    have hp2c : rankCount cards p2 = 2 :=
      ((ranksWithCount_mem cards 2 p2).mp
        (h2p ▸ List.mem_cons_of_mem _ (List.mem_cons_self _ _))).2
    have hnodup := ranksWithCount_nodup cards 2
    rw [h2p] at hnodup
    have hp12 : p1 ≠ p2 := by
      intro he
      exact (List.nodup_cons.mp hnodup).1 (he ▸ List.mem_cons_self _ _)
    have hex : ∃ c ∈ cards, c.rank ≠ p1 ∧ c.rank ≠ p2 := by
      by_contra hno
      push_neg at hno
      have hall : ∀ c ∈ cards, c.rank = p1 ∨ c.rank = p2 := by
        intro c hc
        by_cases h1 : c.rank = p1
        · exact Or.inl h1
        · exact Or.inr (hno c hc h1)
      have := length_eq_two_counts cards p1 p2 hp12 hall
      omega
    obtain ⟨c, hcm, hc1, hc2⟩ := hex
    have hmem : c.rank ∈ (uniqueRanksOf cards).filter (fun r => r ≠ p1 ∧ r ≠ p2) :=
      List.mem_filter.mpr ⟨rank_mem_uniqueRanksOf _ _ hcm, by simp [hc1, hc2]⟩
    obtain ⟨m, hm⟩ := max?_isSome_of_mem _ _ hmem
    simp only [evalPostSF, h4, h3, h2p, hm]
    exact ⟨_, rfl⟩

/-- On any input shaped like a poker hand (two hole cards, three to five
community cards — hence 5 to 7 cards in total) the evaluator returns a value:
none of its internal kicker selections can fail. -/
theorem evaluate_total_core (hole comm : List Card)
    (h5 : 5 ≤ (hole ++ comm).length) (h7 : (hole ++ comm).length ≤ 7) :
    ∃ r, HandEvaluator.evaluate hole comm = some r := by
  have hne : hole ++ comm ≠ [] := by
    intro h
    rw [h] at h5
    simp at h5
  simp only [HandEvaluator.evaluate]
  rw [if_neg hne]
  have hlen : (sortByDesc Card.rank (hole ++ comm)).length = (hole ++ comm).length :=
    (sortByDesc_perm _ _).length_eq
  set cards := sortByDesc Card.rank (hole ++ comm) with hcards
  rcases hfs : flushSuit cards with _ | st
  · simp only [hfs]
    exact evalPostSF_total cards none _ (by omega) (by omega)
  · rcases hsf : straightRanksOf (uniqueRanksOf (cards.filter (fun c => c.suit == st)))
      with _ | ⟨sf0, sfRest⟩
    · simp only [hfs, hsf]
      exact evalPostSF_total cards (some st) _ (by omega) (by omega)
    · simp only [hfs, hsf]
      split
      · exact ⟨_, rfl⟩
      · exact ⟨_, rfl⟩

theorem mem_tenCategories_of_catIdx (cat : String) (k : Nat) (h : catIdx cat = some k) :
    cat ∈ tenCategories := by
  unfold catIdx at h
  split at h <;> simp_all [tenCategories]

/-! ## Claim theorems about the hand evaluator -/

/-- **C3.**  The evaluator's integer score respects the category ordering: for
every two inputs of 2 hole cards plus 3–5 community cards (card ranks in the
2..14 domain), if `evaluate` classifies hand A in a strictly higher category
than hand B (Royal Flush = 9 down to High Card = 0), then `score A > score B`:
each category occupies a disjoint numeric band of width `BASE = 10^10` and no
within-band value spills into a neighboring band. -/
theorem evaluate_respects_category_order
    (hA cA hB cB : List Card) (sA sB : Nat) (catA catB : String) (kA kB : Nat)
    (hA2 : hA.length = 2) (hA3 : 3 ≤ cA.length) (hA5 : cA.length ≤ 5)
    (hAr : ∀ c ∈ hA ++ cA, c.rank ≤ 14)
    (hB2 : hB.length = 2) (hB3 : 3 ≤ cB.length) (hB5 : cB.length ≤ 5)
    (hBr : ∀ c ∈ hB ++ cB, c.rank ≤ 14)
    (hevA : HandEvaluator.evaluate hA cA = some (sA, catA))
    (hevB : HandEvaluator.evaluate hB cB = some (sB, catB))
    (hkA : catIdx catA = some kA) (hkB : catIdx catB = some kB)
    (hlt : kB < kA) : sB < sA := by
  have hneA : hA ++ cA ≠ [] := by
    intro h
    have := congrArg List.length h
    simp [hA2] at this
  have hneB : hB ++ cB ≠ [] := by
    intro h
    have := congrArg List.length h
    simp [hB2] at this
  obtain ⟨kA', hkA', hAlo, _⟩ := evaluate_band hA cA hneA hAr sA catA hevA
  obtain ⟨kB', hkB', _, hBhi⟩ := evaluate_band hB cB hneB hBr sB catB hevB
  rw [hkA] at hkA'
  rw [hkB] at hkB'
  obtain rfl := Option.some.inj hkA'
  obtain rfl := Option.some.inj hkB'
  have hstep : (kB + 1) * BASE ≤ kA * BASE := Nat.mul_le_mul_right _ hlt
  omega

/-- Witness for C3: the royal-flush test hand scores above the high-card
test hand, by the category-band theorem. -/
theorem evaluate_respects_category_order_witness :
    HandEvaluator.evaluate [⟨14, .h⟩, ⟨13, .h⟩]
        [⟨12, .h⟩, ⟨11, .h⟩, ⟨10, .h⟩, ⟨2, .c⟩, ⟨3, .d⟩] =
      some (90000000000, "Royal Flush") ∧
    HandEvaluator.evaluate [⟨14, .h⟩, ⟨13, .d⟩]
        [⟨12, .c⟩, ⟨9, .s⟩, ⟨7, .h⟩, ⟨2, .c⟩, ⟨3, .d⟩] =
      some (1413120907, "High Card") ∧
    (1413120907 : Nat) < 90000000000 :=
  ⟨by decide, by decide,
    evaluate_respects_category_order
      [⟨14, .h⟩, ⟨13, .h⟩] [⟨12, .h⟩, ⟨11, .h⟩, ⟨10, .h⟩, ⟨2, .c⟩, ⟨3, .d⟩]
      [⟨14, .h⟩, ⟨13, .d⟩] [⟨12, .c⟩, ⟨9, .s⟩, ⟨7, .h⟩, ⟨2, .c⟩, ⟨3, .d⟩]
      90000000000 1413120907 "Royal Flush" "High Card" 9 0
      rfl (by norm_num) (by norm_num) (by decide)
      rfl (by norm_num) (by norm_num) (by decide)
      (by decide) (by decide) rfl rfl (by norm_num)⟩

/-- **C10.**  On every poker-shaped input — 2 hole cards plus 3–5 community
cards, hence at least 5 cards in total — `evaluate` is total: it returns a
`(score, category)` pair and never fails; in particular every kicker
selection (the max over non-quad ranks, the two kickers beside trips, the
kicker beside two pair) is taken over a non-empty set. -/
theorem evaluate_total_on_poker_inputs (hole comm : List Card)
    (h2 : hole.length = 2) (h3 : 3 ≤ comm.length) (h5 : comm.length ≤ 5) :
    ∃ r, HandEvaluator.evaluate hole comm = some r := by
  apply evaluate_total_core <;> simp [h2] <;> omega

/-- Witness for C10 at a 5-card four-of-a-kind input, the case whose kicker
selection ranges over the single non-quad card. -/
theorem evaluate_total_on_poker_inputs_witness :
    ∃ r, HandEvaluator.evaluate [⟨14, .h⟩, ⟨14, .d⟩]
      [⟨14, .c⟩, ⟨14, .s⟩, ⟨13, .h⟩] = some r :=
  evaluate_total_on_poker_inputs _ _ rfl (by norm_num) (by norm_num)

/-- **C8 (counterexample).**  An input with fewer than 5 positions does not
fail with a `MalformedHand` error: the code has no such error at all, and on
the empty input `evaluate` succeeds with the sentinel `(0, "No Hand")`. -/
theorem evaluate_empty_returns_no_hand :
    HandEvaluator.evaluate [] [] = some (0, "No Hand") := rfl

/-- **C8 (amended).**  For every input with 5 or more positions (2 hole plus
3–5 community cards) the evaluation returns one of the ten hand categories;
for fewer than 5 positions no `MalformedHand` failure exists — the empty
input returns the sentinel `(0, "No Hand")` instead of failing. -/
theorem evaluate_returns_category_of_ge5 (hole comm : List Card)
    (h2 : hole.length = 2) (h3 : 3 ≤ comm.length) (h5 : comm.length ≤ 5)
    (hr : ∀ c ∈ hole ++ comm, c.rank ≤ 14) :
    ∃ s cat, HandEvaluator.evaluate hole comm = some (s, cat) ∧
      cat ∈ tenCategories := by
  obtain ⟨⟨s, cat⟩, hev⟩ := evaluate_total_core hole comm
    (by simp [h2]; omega) (by simp [h2]; omega)
  refine ⟨s, cat, hev, ?_⟩
  have hne : hole ++ comm ≠ [] := by
    intro h
    have := congrArg List.length h
    simp [h2] at this
  obtain ⟨k, hk, _, _⟩ := evaluate_band hole comm hne hr s cat hev
  exact mem_tenCategories_of_catIdx cat k hk

/-- Witness for the amended C8 at the full-house test input. -/
theorem evaluate_returns_category_of_ge5_witness :
    ∃ s cat, HandEvaluator.evaluate [⟨14, .h⟩, ⟨14, .d⟩]
        [⟨14, .c⟩, ⟨13, .s⟩, ⟨13, .h⟩, ⟨2, .c⟩, ⟨3, .d⟩] = some (s, cat) ∧
      cat ∈ tenCategories :=
  evaluate_returns_category_of_ge5 _ _ rfl (by norm_num) (by norm_num) (by decide)

/-! ## Association-list lemmas for the players map -/

theorem lookup_cons (k : Nat) (b : PlayerState) (t : List (Nat × PlayerState)) (v : Nat) :
    List.lookup v ((k, b) :: t) = if v = k then some b else List.lookup v t := by
  by_cases h : v = k
  · simp [List.lookup, h]
  · have hb : (v == k) = false := by simpa using h
    simp [List.lookup, hb, h]

theorem eraseP_cons (k : Nat) (b : PlayerState) (t : List (Nat × PlayerState)) (uid : Nat) :
    eraseP ((k, b) :: t) uid =
      if k = uid then eraseP t uid else (k, b) :: eraseP t uid := by
  by_cases h : k = uid
  · simp [eraseP, List.filter_cons, h]
  · simp [eraseP, List.filter_cons, h]

theorem updateP_cons (k : Nat) (b : PlayerState) (t : List (Nat × PlayerState)) (uid : Nat)
    (f : PlayerState → PlayerState) :
    updateP ((k, b) :: t) uid f =
      (if k = uid then (k, f b) else (k, b)) :: updateP t uid f := by
  by_cases h : k = uid
  · simp [updateP, h]
  · simp [updateP, h]

theorem lookup_eraseP (ps : List (Nat × PlayerState)) (uid : Nat) :
    (eraseP ps uid).lookup uid = none := by
  induction ps with
  | nil => rfl
  | cons e t ih =>
      obtain ⟨k, b⟩ := e
      rw [eraseP_cons]
      by_cases h : k = uid
      · rw [if_pos h]
        exact ih
      · rw [if_neg h, lookup_cons, if_neg (fun hh => h hh.symm)]
        exact ih

theorem lookup_updateP_self (ps : List (Nat × PlayerState)) (uid : Nat)
    (f : PlayerState → PlayerState) :
    (updateP ps uid f).lookup uid = (ps.lookup uid).map f := by
  induction ps with
  | nil => rfl
  | cons e t ih =>
      obtain ⟨k, b⟩ := e
      rw [updateP_cons]
      by_cases h : k = uid
      · rw [if_pos h, lookup_cons, lookup_cons, if_pos h.symm, if_pos h.symm]
        rfl
      · rw [if_neg h, lookup_cons, lookup_cons,
          if_neg (fun hh => h hh.symm), if_neg (fun hh => h hh.symm)]
        exact ih

theorem lookup_updateP_ne (ps : List (Nat × PlayerState)) (uid v : Nat)
    (f : PlayerState → PlayerState) (hne : v ≠ uid) :
    (updateP ps uid f).lookup v = ps.lookup v := by
  induction ps with
  | nil => rfl
  | cons e t ih =>
      obtain ⟨k, b⟩ := e
      rw [updateP_cons]
      by_cases h : k = uid
      · rw [if_pos h, lookup_cons, lookup_cons,
          if_neg (fun hh : v = k => hne (hh.trans h)), if_neg (fun hh : v = k => hne (hh.trans h))]
        exact ih
      · rw [if_neg h, lookup_cons, lookup_cons]
        by_cases hv : v = k
        · rw [if_pos hv, if_pos hv]
        · rw [if_neg hv, if_neg hv]
          exact ih

/-! ## C1: capture-deposit is not idempotent (code bug) -/

/-- **C1 (code bug).**  `handle_verify_deposit` selects the transaction by
order id and user only — with no `status = 'pending'` filter — so a second
`capture_deposit` with the same order id, with the provider still reporting
COMPLETED, credits the wallet again: after two captures of a €10 deposit the
balance is 20, not 10.  The spec requires the second call to be idempotent. -/
theorem captureDeposit_not_idempotent :
    let w0 : WalletDb := ⟨0, 0, [⟨7, 10, "pending", "ORD1"⟩]⟩
    let w1 := (captureDeposit w0 7 "ORD1" "COMPLETED").1
    let w2 := (captureDeposit w1 7 "ORD1" "COMPLETED").1
    w1.balance = 10 ∧ w1.txs.map DepositTx.status = ["completed"] ∧
    w2.balance = 20 ∧ w2.total_deposited = 20 := by
  refine ⟨?_, ?_, ?_, ?_⟩ <;>
    norm_num [captureDeposit, List.find?]

/-! ## C2: a removal that ends the hand destroys the pot (code bug) -/

/-- **C2 (code bug).**  Removing the non-acting player from a heads-up live
hand leaves fewer than 2 active players, so the table goes to `waiting` with
the pot zeroed and the community cleared — but the 3 chips committed to the
pot are awarded to nobody: the remaining player's stack stays at 99, so the
chips vanish, contradicting the claim that mid-hand contributions are paid
out under the single-player-remaining showdown rule. -/
theorem remove_player_destroys_pot :
    ∃ t', PokerTable.remove_player tHU 2 = some (98, t') ∧
      t'.game_phase = "waiting" ∧ t'.pot = 0 ∧ t'.community_cards = [] ∧
      (t'.players.lookup 1).map PlayerState.chips = some 99 ∧
      t'.winners = [] := by
  refine ⟨_, rfl, ?_, ?_, ?_, ?_, ?_⟩ <;> rfl

/-! ## C9: removing the action holder fails with a KeyError -/

/-- **C9.**  In a hand whose phase is not `waiting`, calling `remove_player`
for the user who currently holds the action does not complete normally: the
courtesy fold it dispatches runs after the player's entry has been deleted
from the players map, so the lookup inside `handle_action` fails (a
`KeyError` in the source) and no chips are returned. -/
theorem remove_current_player_fails (t : PokerTable) (uid : Nat) (p : PlayerState)
    (hseat : t.players.lookup uid = some p)
    (hlive : t.game_phase ≠ "waiting")
    (hcur : t.current_player = some uid) :
    PokerTable.remove_player t uid = none := by
  have hnone : (eraseP t.players uid).lookup uid = none := lookup_eraseP _ _
  simp only [PokerTable.remove_player, hseat]
  rw [if_pos ⟨hlive, hcur⟩]
  simp [PokerTable.handle_action, hnone]

/-- Witness for C9: removing the action holder of the heads-up hand fails. -/
theorem remove_current_player_fails_witness :
    PokerTable.remove_player tHU 1 = none :=
  remove_current_player_fails tHU 1 (mkPlayer 99 0 1 [⟨14, .s⟩, ⟨13, .s⟩])
    (by decide) (by decide) rfl

/-! ## C7: snapshot redaction -/

/-- **C7.**  Two-run redaction property of `get_state`: (i) snapshots of the
same table produced for any two viewers agree everywhere once every player
entry's `cards` array is blanked — the cards arrays are the only
viewer-dependent part; (ii) the snapshot's player entries are exactly the
rendered seats; (iii) a seat's hole cards appear unredacted precisely when
the viewer is that player or the phase is showdown and the player has not
folded, and in every other case the rendered cards are the `"?"/value 0`
placeholders (or empty), revealing nothing. -/
theorem get_state_redaction (t : PokerTable) (v1 v2 : Option Nat)
    (uid : Nat) (p : PlayerState) :
    stripCards (t.get_state v1) = stripCards (t.get_state v2) ∧
    (t.get_state v1).players = t.players.map (t.render_player v1) ∧
    ((v1 = some uid ∨ (t.game_phase = "showdown" ∧ p.folded = false)) →
      (t.render_player v1 (uid, p)).cards = p.cards.map Card.to_dict) ∧
    (¬(v1 = some uid ∨ (t.game_phase = "showdown" ∧ p.folded = false)) →
      ∀ cd ∈ (t.render_player v1 (uid, p)).cards,
        cd.value = 0 ∧ cd.rank = "?" ∧ cd.suit = "?") := by
  refine ⟨?_, rfl, ?_, ?_⟩
  · simp only [stripCards, PokerTable.get_state, List.map_map]
    congr 1
  · intro h
    simp only [PokerTable.render_player]
    rw [if_pos h]
  · intro h
    simp only [PokerTable.render_player]
    rw [if_neg h]
    by_cases hf : p.folded
    · rw [if_pos hf]
      intro cd hcd
      simp at hcd
    · rw [if_neg hf]
      by_cases hc : p.cards = []
      · rw [if_pos hc]
        intro cd hcd
        simp at hcd
      · rw [if_neg hc]
        intro cd hcd
        rcases List.mem_cons.mp hcd with rfl | hcd2
        · exact ⟨rfl, rfl, rfl⟩
        · rcases List.mem_cons.mp hcd2 with rfl | hcd3
          · exact ⟨rfl, rfl, rfl⟩
          · simp at hcd3

/-- Witness for C7: the snapshots of the heads-up table for viewers 1 and 2
coincide after blanking the cards arrays. -/
theorem get_state_redaction_witness :
    stripCards (tHU.get_state (some 1)) = stripCards (tHU.get_state (some 2)) :=
  (get_state_redaction tHU (some 1) (some 2) 2 (mkPlayer 98 1 2 [⟨2, .d⟩, ⟨7, .c⟩])).1

/-! ## C4: the raise rule as implemented -/

theorem mem_insertUnique (l : List Nat) (u x : Nat) :
    x ∈ insertUnique l u ↔ x = u ∨ x ∈ l := by
  rw [insertUnique]
  by_cases h : u ∈ l
  · rw [if_pos h]
    constructor
    · exact Or.inr
    · rintro (rfl | hx)
      · exact h
      · exact hx
  · rw [if_neg h]
    simp [List.mem_append, or_comm]

/-- **C4 (amended).**  A raise to the per-street total `amount` is accepted
exactly when `amount ≥ current_bet * 2` (the implementation's min-raise
rule; no `min_raise` state variable exists) or `amount` equals the raiser's
chips plus their street commitment (short all-in), provided the added chips
`amount − player.current_bet` do not exceed the stack.  On acceptance the
table's `current_bet` becomes `amount`, the raiser's chips and street
commitment move accordingly, and `handle_action` then ADDS the raiser to
`players_acted` (the set is not reset) before advancing the turn. -/
theorem handle_action_raise_semantics (t : PokerTable) (uid : Nat)
    (p : PlayerState) (amount : ℚ)
    (hseat : t.players.lookup uid = some p)
    (hphase : ¬(t.game_phase = "waiting" ∨ t.game_phase = "showdown"))
    (hturn : t.current_player = some uid) :
    ((∃ t1, PokerTable.raise_branch t uid p amount = Except.ok t1) ↔
      ((t.current_bet * 2 ≤ amount ∨ amount = p.chips + p.current_bet) ∧
        amount - p.current_bet ≤ p.chips)) ∧
    (∀ t1, PokerTable.raise_branch t uid p amount = Except.ok t1 →
      t1.current_bet = amount ∧
      t1.players.lookup uid = some { p with
        chips := p.chips - (amount - p.current_bet),
        current_bet := p.current_bet + (amount - p.current_bet),
        last_action := if p.chips - (amount - p.current_bet) = 0 then "ALL-IN" else "RAISE",
        all_in := if p.chips - (amount - p.current_bet) = 0 then true else p.all_in } ∧
      t1.players_acted = t.players_acted ∧
      t1.pot = t.pot + (amount - p.current_bet)) ∧
    (∀ x, x ∈ insertUnique t.players_acted uid ↔ x = uid ∨ x ∈ t.players_acted) ∧
    (PokerTable.handle_action t uid "raise" amount =
      match PokerTable.raise_branch t uid p amount with
      | Except.error r => some (r, t)
      | Except.ok t1 => PokerTable.finish_action t1 uid) := by
  refine ⟨?_, ?_, fun x => mem_insertUnique _ _ _, ?_⟩
  · constructor
    · rintro ⟨t1, ht1⟩
      simp only [PokerTable.raise_branch] at ht1
      split_ifs at ht1 with h1 h2 h3
      all_goals first
        | exact Except.noConfusion ht1
        | (push_neg at h1
           constructor
           · by_cases hlt : amount < t.current_bet * 2
             · exact Or.inr (h1 hlt)
             · exact Or.inl (le_of_not_lt hlt)
           · exact le_of_not_lt h2)
    · rintro ⟨hor, hle⟩
      simp only [PokerTable.raise_branch]
      have hc1 : ¬(amount < t.current_bet * 2 ∧ amount ≠ p.chips + p.current_bet) := by
        rcases hor with h | h
        · exact fun hcon => absurd h (not_le.mpr hcon.1)
        · exact fun hcon => hcon.2 h
      rw [if_neg hc1, if_neg (not_lt.mpr hle)]
      exact ⟨_, rfl⟩
  · intro t1 ht1
    simp only [PokerTable.raise_branch] at ht1
    split_ifs at ht1 with h1 h2 h3
    all_goals first
      | exact Except.noConfusion ht1
      | (obtain rfl := Except.ok.inj ht1
         refine ⟨rfl, ?_, rfl, rfl⟩
         rw [lookup_updateP_self, hseat]
         simp [h3])
  · rcases hrb : PokerTable.raise_branch t uid p amount with r | t1 <;>
      simp [PokerTable.handle_action, PokerTable.handle_action_main,
        hseat, hphase, hturn, hrb]


/-- **C4 (counterexample).**  On a post-flop street (`current_bet = 0`,
big blind 2) a "raise" to a total of 1 violates the claimed rule
(`level − current_bet = 1 < 2 = min_raise` at the start of the street, and
1 is not the raiser's chips plus commitment), yet the engine accepts it:
the implemented test is `amount ≥ current_bet * 2 = 0`. -/
theorem raise_below_min_raise_accepted :
    resultFlag (PokerTable.handle_action tFlop 1 "raise" 1) =
      some (true, "Action accepted") ∧
    (1 : ℚ) - tFlop.current_bet < tFlop.big_blind ∧
    (1 : ℚ) ≠ (mkPlayer 100 0 0 [⟨14, .s⟩, ⟨13, .s⟩]).chips +
      (mkPlayer 100 0 0 [⟨14, .s⟩, ⟨13, .s⟩]).current_bet ∧
    tFlop.players.lookup 1 = some (mkPlayer 100 0 0 [⟨14, .s⟩, ⟨13, .s⟩]) := by
  have hrb : PokerTable.raise_branch tFlop 1 (mkPlayer 100 0 0 [⟨14, .s⟩, ⟨13, .s⟩]) 1 =
      Except.ok tFlopRaised := by
    norm_num [PokerTable.raise_branch, tFlop, tFlopRaised, baseTable, mkPlayer,
      updateP, setAssoc]
  have h1 : PokerTable.handle_action tFlop 1 "raise" 1 =
      (match PokerTable.raise_branch tFlop 1 (mkPlayer 100 0 0 [⟨14, .s⟩, ⟨13, .s⟩]) 1 with
       | Except.error r => some (r, tFlop)
       | Except.ok t1 => PokerTable.finish_action t1 1) := rfl
  refine ⟨?_, by norm_num [tFlop, baseTable], by norm_num [mkPlayer], rfl⟩
  rw [resultFlag, h1, hrb]
  decide

/-- Witness for the amended C4: a raise to 6 on the flop street is accepted
by the implemented rule. -/
theorem handle_action_raise_semantics_witness :
    ∃ t1, PokerTable.raise_branch tFlop 1 (mkPlayer 100 0 0 [⟨14, .s⟩, ⟨13, .s⟩]) 6 =
      Except.ok t1 :=
  (handle_action_raise_semantics tFlop 1 (mkPlayer 100 0 0 [⟨14, .s⟩, ⟨13, .s⟩]) 6
      rfl (by decide) rfl).1.mpr
    (by norm_num [tFlop, baseTable, mkPlayer])

/-! ## C6: showdown splitting -/

theorem sum_map_const_q {α : Type} (l : List α) (c : ℚ) :
    (l.map (fun _ => c)).sum = l.length * c := by
  induction l with
  | nil => simp
  | cons x xs ih =>
      simp [ih]
      ring

/-- **C6 (amended).**  At showdown the tied best hands split the pot by exact
division: every winner entry's amount is `pot / (number of winners)`, the
amounts sum to exactly the pot, and every winner comes from the evaluated
non-folded seats.  There is no whole-unit remainder distribution. -/
theorem evaluate_showdown_equal_split (t : PokerTable)
    (pairs : List (Nat × PlayerState)) (rs : List ShowdownEntry) (t' : PokerTable)
    (hpairs : lookupOrder t.players t.active_seat_order = some pairs)
    (hrs : PokerTable.showdownResults pairs t.community_cards = some rs)
    (hne : rs ≠ [])
    (hev : PokerTable.evaluate_showdown t = some t') :
    t'.winners ≠ [] ∧
    (∀ w ∈ t'.winners, w.amount = t.pot / (t'.winners.length : ℚ)) ∧
    (t'.winners.map Winner.amount).sum = t.pot ∧
    (∀ w ∈ t'.winners, ∃ r ∈ rs, r.user_id = w.user_id ∧ r.desc = w.hand) := by
  simp only [PokerTable.evaluate_showdown, hpairs, hrs, Option.bind_eq_bind,
    Option.some_bind] at hev
  rcases hs : sortByDesc ShowdownEntry.score rs with _ | ⟨best, stail⟩
  · exact absurd ((sortByDesc_eq_nil_iff _ _).mp hs) hne
  · simp only [hs] at hev
    rcases hcw : PokerTable.creditWinners t.players
        (t.pot / (((best :: stail).filter (fun r => r.score == best.score)).length : ℚ))
        ((best :: stail).filter (fun r => r.score == best.score)) with _ | ps2
    · rw [hcw] at hev
      simp at hev
    · rw [hcw] at hev
      simp only [Option.bind_eq_bind, Option.some_bind, Option.pure_def,
        Option.some.injEq] at hev
      subst hev
      set W := (best :: stail).filter (fun r => r.score == best.score) with hW
      have hbestW : best ∈ W := by
        rw [hW]
        refine List.mem_filter.mpr ⟨List.mem_cons_self _ _, ?_⟩
        simp
      have hWne : W ≠ [] := fun h => by
        rw [h] at hbestW
        simp at hbestW
      have hlen : (W.map (fun r => (⟨r.user_id, t.pot / (W.length : ℚ), r.desc⟩ : Winner))).length
          = W.length := List.length_map _ _
      refine ⟨?_, ?_, ?_, ?_⟩
      · simp only [ne_eq, List.map_eq_nil_iff]
        exact hWne
      · intro w hw
        obtain ⟨r, _, rfl⟩ := List.mem_map.mp hw
        simp only [hlen]
      · have : (W.map (fun r => (⟨r.user_id, t.pot / (W.length : ℚ), r.desc⟩ : Winner))).map
            Winner.amount = W.map (fun _ => t.pot / (W.length : ℚ)) := by
          rw [List.map_map]
          rfl
        rw [this, sum_map_const_q]
        have hn : (W.length : ℚ) ≠ 0 := by
          have := List.length_pos.mpr hWne
          positivity
        field_simp
      · intro w hw
        obtain ⟨r, hrW, rfl⟩ := List.mem_map.mp hw
        have hrs2 : r ∈ rs := by
          have h1 : r ∈ best :: stail := List.mem_of_mem_filter hrW
          rw [← hs] at h1
          exact (sortByDesc_perm _ _).mem_iff.mp h1
        exact ⟨r, hrs2, rfl, rfl⟩

/-- Computation: `_evaluate_showdown` on the board-royal-flush table. -/
theorem evaluate_showdown_tRoyal :
    PokerTable.evaluate_showdown tRoyalBoard = some tRoyalAfter := rfl

/-- **C6 (counterexample).**  With three players tying on a board royal flush
and a pot of 10, each winner is credited exactly `10/3`: the amounts are all
equal (no remainder is handed out one unit at a time clockwise from the
dealer) and `10/3` is not a whole number of cents, contradicting the claim
that every winner receives a whole number of units. -/
theorem showdown_split_not_whole_units :
    (PokerTable.evaluate_showdown tRoyalBoard).map (fun t2 => t2.winners.map Winner.amount) =
      some [10/3, 10/3, 10/3] ∧
    ((10 : ℚ)/3 + 10/3 + 10/3 = 10) ∧
    (((10 : ℚ)/3) * 100).den ≠ 1 := by
  refine ⟨?_, by norm_num, ?_⟩
  · rw [evaluate_showdown_tRoyal]
    norm_num [tRoyalAfter, tRoyalBoard, baseTable]
  · rw [show ((10 : ℚ)/3) * 100 = 1000/3 by norm_num]
    have h3 : ((1000 : ℚ)/3).den = 3 := by norm_num [Rat.den_div_eq_of_coprime]
    rw [h3]
    norm_num

/-- Witness for the amended C6 at the board-royal-flush table: the three
equal awards of `10/3` sum to the pot of 10. -/
theorem evaluate_showdown_equal_split_witness :
    (tRoyalAfter.winners.map Winner.amount).sum = tRoyalBoard.pot :=
  (evaluate_showdown_equal_split tRoyalBoard
      [(1, mkPlayer 90 0 0 [⟨2, .h⟩, ⟨3, .h⟩]),
       (2, mkPlayer 90 1 0 [⟨2, .d⟩, ⟨3, .d⟩]),
       (3, mkPlayer 90 2 0 [⟨2, .c⟩, ⟨3, .c⟩])]
      [⟨1, 90000000000, "Royal Flush"⟩, ⟨2, 90000000000, "Royal Flush"⟩,
       ⟨3, 90000000000, "Royal Flush"⟩]
      tRoyalAfter rfl (by decide) (by decide) evaluate_showdown_tRoyal).2.2.1


/-! ## C5: the live-turn invariant -/

theorem liveTurnOk_intro (t : PokerTable)
    (h : ∀ uid, t.current_player = some uid →
      ∃ p, t.players.lookup uid = some p ∧ p.folded = false) :
    liveTurnOk t = true := by
  rw [liveTurnOk]
  split
  · rfl
  · rcases hc : t.current_player with _ | uid
    · rfl
    · obtain ⟨p, hp, hf⟩ := h uid hc
      simp only [hp, hf, Bool.not_false]

theorem liveTurnOk_of_phase (t : PokerTable)
    (h : t.game_phase = "waiting" ∨ t.game_phase = "showdown") :
    liveTurnOk t = true := by
  rw [liveTurnOk, if_pos]
  rcases h with h | h <;> simp [h]

theorem liveTurnOk_updateP (t : PokerTable) (uid : Nat) (f : PlayerState → PlayerState)
    (hf : ∀ p, (f p).folded = p.folded)
    (h : liveTurnOk t = true) :
    liveTurnOk { t with players := updateP t.players uid f } = true := by
  have hg : ({ t with
      players := updateP t.players uid f } : PokerTable).game_phase = t.game_phase := rfl
  have hc : ({ t with
      players := updateP t.players uid f } : PokerTable).current_player = t.current_player := rfl
  have hp : ({ t with
      players := updateP t.players uid f } : PokerTable).players = updateP t.players uid f := rfl
  rw [liveTurnOk, hg, hc, hp]
  rw [liveTurnOk] at h
  split at h
  · next hph =>
    rw [if_pos hph]
  · next hph =>
    rw [if_neg hph]
    rcases hcur : t.current_player with _ | v
    · rfl
    · simp only [hcur] at h
      rcases hl : t.players.lookup v with _ | p
      · simp only [hl] at h
        exact Bool.noConfusion h
      · simp only [hl] at h
        by_cases hvu : v = uid
        · subst hvu
          simp only [lookup_updateP_self, hl, Option.map_some', hf]
          exact h
        · simp only [lookup_updateP_ne _ _ _ _ hvu, hl]
          exact h

theorem lookupOrder_mem (ps : List (Nat × PlayerState)) :
    ∀ (order : List Nat) (pairs : List (Nat × PlayerState)),
      lookupOrder ps order = some pairs →
      ∀ e ∈ pairs, ps.lookup e.1 = some e.2 := by
  intro order
  induction order with
  | nil =>
      intro pairs h e he
      simp only [lookupOrder, Option.some.injEq] at h
      subst h
      simp at he
  | cons u rest ih =>
      intro pairs h e he
      simp only [lookupOrder, Option.bind_eq_bind] at h
      rcases hl : ps.lookup u with _ | p
      · rw [hl] at h
        simp at h
      · rw [hl] at h
        rcases ht : lookupOrder ps rest with _ | tail
        · rw [ht] at h
          simp at h
        · rw [ht] at h
          simp only [Option.some_bind, Option.pure_def, Option.some.injEq] at h
          subst h
          rcases List.mem_cons.mp he with rfl | he2
          · exact hl
          · exact ih tail ht e he2

theorem evaluate_showdown_keeps (t t2 : PokerTable)
    (h : PokerTable.evaluate_showdown t = some t2) :
    t2.game_phase = t.game_phase ∧ t2.current_player = t.current_player := by
  simp only [PokerTable.evaluate_showdown, Option.bind_eq_bind] at h
  rcases hlo : lookupOrder t.players t.active_seat_order with _ | pairs
  · rw [hlo] at h
    simp at h
  · rw [hlo] at h
    simp only [Option.some_bind] at h
    rcases hrs : PokerTable.showdownResults pairs t.community_cards with _ | rs
    · rw [hrs] at h
      simp at h
    · rw [hrs] at h
      simp only [Option.some_bind] at h
      rcases hs : sortByDesc ShowdownEntry.score rs with _ | ⟨best, stail⟩ <;>
        rw [hs] at h
      · simp only [Option.pure_def, Option.some.injEq] at h
        subst h
        exact ⟨rfl, rfl⟩
      · simp only [Option.bind_eq_bind] at h
        rcases hcw : PokerTable.creditWinners t.players
            (t.pot / (((best :: stail).filter (fun r => r.score == best.score)).length : ℚ))
            ((best :: stail).filter (fun r => r.score == best.score)) with _ | ps2
        · rw [hcw] at h
          simp at h
        · rw [hcw] at h
          simp only [Option.some_bind, Option.pure_def, Option.some.injEq] at h
          subst h
          exact ⟨rfl, rfl⟩

theorem runOutBoard_keeps (t t2 : PokerTable)
    (h : PokerTable.runOutBoard t = some t2) :
    t2.game_phase = t.game_phase ∧ t2.current_player = t.current_player ∧
      t2.players = t.players ∧ t2.active_seat_order = t.active_seat_order ∧
      t2.pot = t.pot := by
  induction t using PokerTable.runOutBoard.induct with
  | case1 t' hlt c d hdeal ih =>
      rw [PokerTable.runOutBoard, if_pos hlt, hdeal] at h
      exact ih h
  | case2 t' hlt hdeal =>
      rw [PokerTable.runOutBoard, if_pos hlt, hdeal] at h
      exact Option.noConfusion h
  | case3 t' hlt =>
      rw [PokerTable.runOutBoard, if_neg hlt] at h
      obtain rfl := Option.some.inj h
      exact ⟨rfl, rfl, rfl, rfl, rfl⟩


theorem liveTurnOk_set_opt (t : PokerTable) (x : Option Nat)
    (h : ∀ u, x = some u → ∃ p, t.players.lookup u = some p ∧ p.folded = false) :
    liveTurnOk { t with current_player := x } = true := by
  apply liveTurnOk_intro
  intro u hu
  exact h u hu

theorem setFirstToAct_ok (t t' : PokerTable)
    (h : PokerTable.setFirstToAct t = some t') : liveTurnOk t' = true := by
  simp only [PokerTable.setFirstToAct, Option.bind_eq_bind] at h
  rcases hlo : lookupOrder t.players t.active_seat_order with _ | pairs
  · rw [hlo] at h
    simp at h
  · rw [hlo] at h
    simp only [Option.some_bind] at h
    have hmem := lookupOrder_mem t.players t.active_seat_order pairs hlo
    split at h
    · next u hns =>
      simp only [Option.pure_def, Option.some.injEq] at h
      subst h
      apply liveTurnOk_set_opt
      intro v hv
      obtain rfl := Option.some.inj hv
      obtain ⟨j, hj, hfj⟩ := List.exists_of_findSome?_eq_some hns
      split at hfj
      · next e heq =>
        split at hfj
        · next hcond =>
          obtain rfl := Option.some.inj hfj
          simp only [Bool.and_eq_true, Bool.not_eq_true'] at hcond
          exact ⟨e.2, hmem e (List.get?_mem heq), hcond.1⟩
        · exact Option.noConfusion hfj
      · exact Option.noConfusion hfj
    · next hns =>
      rcases hro : PokerTable.runOutBoard t with _ | t2
      · rw [hro] at h
        simp at h
      · rw [hro] at h
        simp only [Option.some_bind] at h
        have hk := evaluate_showdown_keeps _ _ h
        apply liveTurnOk_of_phase
        right
        rw [hk.1]

theorem end_hand_winner_ok (t : PokerTable) (w : Nat) (t' : PokerTable)
    (h : PokerTable.end_hand_winner t w = some t') : liveTurnOk t' = true := by
  simp only [PokerTable.end_hand_winner, Option.bind_eq_bind] at h
  rcases hl : t.players.lookup w with _ | p
  · rw [hl] at h
    simp at h
  · rw [hl] at h
    simp only [Option.some_bind, Option.pure_def, Option.some.injEq] at h
    subst h
    exact liveTurnOk_of_phase _ (Or.inr rfl)

theorem next_phase_ok (t t' : PokerTable)
    (h : PokerTable.next_phase t = some t') : liveTurnOk t' = true := by
  simp only [PokerTable.next_phase, Option.bind_eq_bind] at h
  rcases hrs : PokerTable.resetStreet t.players t.active_seat_order with _ | ps1
  · rw [hrs] at h
    simp at h
  · rw [hrs] at h
    simp only [Option.some_bind] at h
    split at h
    · rcases hd : dealN 3 t.deck with _ | ⟨cs, d⟩
      · rw [hd] at h
        simp at h
      · rw [hd] at h
        simp only [Option.some_bind] at h
        exact setFirstToAct_ok _ _ h
    · split at h
      · rcases hd : dealN 1 t.deck with _ | ⟨cs, d⟩
        · rw [hd] at h
          simp at h
        · rw [hd] at h
          simp only [Option.some_bind] at h
          exact setFirstToAct_ok _ _ h
      · split at h
        · rcases hd : dealN 1 t.deck with _ | ⟨cs, d⟩
          · rw [hd] at h
            simp at h
          · rw [hd] at h
            simp only [Option.some_bind] at h
            exact setFirstToAct_ok _ _ h
        · split at h
          · have hk := evaluate_showdown_keeps _ _ h
            apply liveTurnOk_of_phase
            right
            rw [hk.1]
          · exact setFirstToAct_ok _ _ h

theorem next_turn_ok (t t' : PokerTable)
    (h : PokerTable.next_turn t = some t') : liveTurnOk t' = true := by
  simp only [PokerTable.next_turn, Option.bind_eq_bind] at h
  rcases hlo : lookupOrder t.players t.active_seat_order with _ | pairs
  · rw [hlo] at h
    simp at h
  · rw [hlo] at h
    simp only [Option.some_bind] at h
    have hmem := lookupOrder_mem t.players t.active_seat_order pairs hlo
    split at h
    all_goals
      first
        | exact end_hand_winner_ok _ _ _ h
        | (split at h
           · exact next_phase_ok _ _ h
           · simp only [Option.pure_def, Option.some.injEq] at h
             subst h
             apply liveTurnOk_set_opt
             intro u hu
             obtain ⟨j, hj, hfj⟩ := List.exists_of_findSome?_eq_some hu
             split at hfj
             · next e heq =>
               split at hfj
               · next hcond =>
                 obtain rfl := Option.some.inj hfj
                 simp only [Bool.and_eq_true, Bool.not_eq_true'] at hcond
                 exact ⟨e.2, hmem e (List.get?_mem heq), hcond.1⟩
               · exact Option.noConfusion hfj
             · exact Option.noConfusion hfj)

theorem finish_action_ok (t : PokerTable) (uid : Nat) (r : Bool × String)
    (t' : PokerTable)
    (h : PokerTable.finish_action t uid = some (r, t')) : liveTurnOk t' = true := by
  simp only [PokerTable.finish_action, Option.map_eq_map, Option.map_eq_some'] at h
  obtain ⟨t2, ht2, heq⟩ := h
  have h2 : t2 = t' := congrArg Prod.snd heq
  subst h2
  exact next_turn_ok _ _ ht2


theorem handle_action_main_ok (t : PokerTable) (uid : Nat) (action : String)
    (amount : ℚ) (r : Bool × String) (t' : PokerTable)
    (hlive : liveTurnOk t = true)
    (h : PokerTable.handle_action_main t uid action amount = some (r, t')) :
    liveTurnOk t' = true := by
  simp only [PokerTable.handle_action_main, Option.bind_eq_bind] at h
  rcases hl : t.players.lookup uid with _ | player
  · rw [hl] at h
    simp at h
  · rw [hl] at h
    simp only [Option.some_bind] at h
    split at h
    · next hph =>
      simp only [Option.pure_def, Option.some.injEq, Prod.mk.injEq] at h
      obtain ⟨-, rfl⟩ := h
      exact liveTurnOk_of_phase _ hph
    · split at h
      · simp only [Option.pure_def, Option.some.injEq, Prod.mk.injEq] at h
        obtain ⟨-, rfl⟩ := h
        exact hlive
      · split at h
        · exact finish_action_ok _ _ _ _ h
        · split at h
          · exact finish_action_ok _ _ _ _ h
          · split at h
            · split at h
              · simp only [Option.pure_def, Option.some.injEq, Prod.mk.injEq] at h
                obtain ⟨-, rfl⟩ := h
                exact hlive
              · exact finish_action_ok _ _ _ _ h
            · split at h
              · split at h
                · simp only [Option.pure_def, Option.some.injEq, Prod.mk.injEq] at h
                  obtain ⟨-, rfl⟩ := h
                  exact hlive
                · exact finish_action_ok _ _ _ _ h
              · exact finish_action_ok _ _ _ _ h

theorem handle_action_ok (t : PokerTable) (uid : Nat) (action : String)
    (amount : ℚ) (r : Bool × String) (t' : PokerTable)
    (hlive : liveTurnOk t = true)
    (h : PokerTable.handle_action t uid action amount = some (r, t')) :
    liveTurnOk t' = true := by
  simp only [PokerTable.handle_action, Option.bind_eq_bind] at h
  rcases hl : t.players.lookup uid with _ | player
  · rw [hl] at h
    simp at h
  · rw [hl] at h
    simp only [Option.some_bind] at h
    split at h
    · split at h
      · simp only [Option.bind_eq_bind, Option.bind_eq_some, Option.pure_def,
          Option.some.injEq] at h
        obtain ⟨⟨r0, t2⟩, hr2, heq⟩ := h
        have h2 : t2 = t' := congrArg Prod.snd heq
        subst h2
        exact handle_action_main_ok _ _ _ _ _ _
          (liveTurnOk_updateP t uid (fun p => { p with is_sitting_out := true })
            (fun p => rfl) hlive) hr2
      · simp only [Option.pure_def, Option.some.injEq, Prod.mk.injEq] at h
        obtain ⟨-, rfl⟩ := h
        exact liveTurnOk_updateP t uid (fun p => { p with is_sitting_out := true })
          (fun p => rfl) hlive
    · split at h
      · simp only [Option.pure_def, Option.some.injEq, Prod.mk.injEq] at h
        obtain ⟨-, rfl⟩ := h
        exact liveTurnOk_updateP t uid (fun p => { p with is_sitting_out := false })
          (fun p => rfl) hlive
      · exact handle_action_main_ok _ _ _ _ _ _ hlive h

theorem dealHole_folded : ∀ (order : List Nat) (ps : List (Nat × PlayerState))
    (deck : List Card) (ps2 : List (Nat × PlayerState)) (d2 : List Card),
    PokerTable.dealHoleCards ps deck order = some (ps2, d2) →
    ∀ u, (u ∈ order ∨ (ps.lookup u).map PlayerState.folded = some false) →
    (ps2.lookup u).map PlayerState.folded = some false := by
  intro order
  induction order with
  | nil =>
      intro ps deck ps2 d2 h u hu
      simp only [PokerTable.dealHoleCards, Option.some.injEq, Prod.mk.injEq] at h
      obtain ⟨rfl, rfl⟩ := h
      rcases hu with hu | hu
      · simp at hu
      · exact hu
  | cons v rest ih =>
      intro ps deck ps2 d2 h u hu
      simp only [PokerTable.dealHoleCards, Option.bind_eq_bind] at h
      rcases hl : ps.lookup v with _ | q
      · rw [hl] at h
        simp at h
      · rw [hl] at h
        simp only [Option.some_bind] at h
        rcases hdn : dealN 2 deck with _ | ⟨cs, deck1⟩
        · rw [hdn] at h
          simp at h
        · rw [hdn] at h
          simp only [Option.some_bind] at h
          apply ih _ _ _ _ h u
          rcases hu with hu | hu
          · rcases List.mem_cons.mp hu with rfl | hu2
            · right
              rw [lookup_updateP_self, hl]
              rfl
            · left
              exact hu2
          · right
            by_cases hvu : u = v
            · subst hvu
              rw [lookup_updateP_self, hl]
              rfl
            · rw [lookup_updateP_ne _ _ _ _ hvu]
              exact hu

theorem lookup_updateP_const (ps : List (Nat × PlayerState)) (uid : Nat)
    (p p' : PlayerState) (u : Nat) (hl : ps.lookup uid = some p)
    (hps : p'.folded = p.folded)
    (hu : (ps.lookup u).map PlayerState.folded = some false) :
    ((updateP ps uid (fun _ => p')).lookup u).map PlayerState.folded = some false := by
  by_cases hvu : u = uid
  · subst hvu
    rw [lookup_updateP_self, hl]
    simp only [Option.map_some']
    rw [hps]
    rw [hl] at hu
    simp only [Option.map_some'] at hu
    exact hu
  · rw [lookup_updateP_ne _ _ _ _ hvu]
    exact hu

theorem post_blind_folded (t : PokerTable) (w : Nat) (a : ℚ) (t3 : PokerTable)
    (h : PokerTable.post_blind t w a = some t3) (u : Nat)
    (hu : (t.players.lookup u).map PlayerState.folded = some false) :
    (t3.players.lookup u).map PlayerState.folded = some false := by
  simp only [PokerTable.post_blind, Option.bind_eq_bind] at h
  rcases hl : t.players.lookup w with _ | p
  · rw [hl] at h
    simp at h
  · rw [hl] at h
    simp only [Option.some_bind, Option.pure_def, Option.some.injEq] at h
    subst h
    exact lookup_updateP_const t.players w p _ u hl rfl hu

theorem start_hand_go_ok (t : PokerTable) (deck : List Card)
    (act : List (Nat × PlayerState)) (t' : PokerTable)
    (h : PokerTable.start_hand_go t deck act = some t') : liveTurnOk t' = true := by
  simp only [PokerTable.start_hand_go, Option.bind_eq_bind] at h
  obtain ⟨de, hde, h⟩ := Option.bind_eq_some.mp h
  obtain ⟨⟨ps2, deck2⟩, hdeal, h⟩ := Option.bind_eq_some.mp h
  obtain ⟨sbU, hsb, h⟩ := Option.bind_eq_some.mp h
  obtain ⟨bbU, hbb, h⟩ := Option.bind_eq_some.mp h
  obtain ⟨t3, hpb1, h⟩ := Option.bind_eq_some.mp h
  obtain ⟨t4, hpb2, h⟩ := Option.bind_eq_some.mp h
  obtain ⟨nx, hnx, ht'⟩ := Option.bind_eq_some.mp h
  obtain rfl := Option.some.inj ht'
  apply liveTurnOk_intro
  intro u hu
  have hu2 : some nx = some u := hu
  obtain rfl := Option.some.inj hu2
  have k1 := dealHole_folded _ _ _ _ _ hdeal nx (Or.inl (List.get?_mem hnx))
  have k2 := post_blind_folded _ _ _ _ hpb1 nx k1
  have k3 := post_blind_folded _ _ _ _ hpb2 nx k2
  rcases hlk : t4.players.lookup nx with _ | p
  · rw [hlk] at k3
    exact Option.noConfusion k3
  · rw [hlk] at k3
    simp only [Option.map_some', Option.some.injEq] at k3
    exact ⟨p, rfl, k3⟩

theorem start_hand_ok (t : PokerTable) (deck : List Card) (t' : PokerTable)
    (h : PokerTable.start_hand t deck = some t') : liveTurnOk t' = true := by
  simp only [PokerTable.start_hand] at h
  split at h
  · obtain rfl := Option.some.inj h
    exact liveTurnOk_of_phase _ (Or.inl rfl)
  · exact start_hand_go_ok _ _ _ _ h

/-- **C5** (corrected).  The live-turn invariant that the table state machine
actually maintains: after `start_hand`, after every street transition
(`_next_phase`), and after every `handle_action` from a state satisfying it,
whenever the hand is live (phase neither `waiting` nor `showdown`) and
`current_player` is set, that player is seated and not folded.  The stated
stronger invariant — also not all-in and not sitting out — does not hold
(see `sitout_out_of_turn_breaks_invariant`). -/
theorem live_turn_invariant_preserved :
    (∀ t deck t', PokerTable.start_hand t deck = some t' → liveTurnOk t' = true) ∧
    (∀ t t', PokerTable.next_phase t = some t' → liveTurnOk t' = true) ∧
    (∀ t uid action amount r t', liveTurnOk t = true →
      PokerTable.handle_action t uid action amount = some (r, t') →
      liveTurnOk t' = true) :=
  ⟨fun t deck t' h => start_hand_ok t deck t' h,
   fun t t' h => next_phase_ok t t' h,
   fun t uid action amount r t' hlive h =>
     handle_action_ok t uid action amount r t' hlive h⟩

/-- Witness for `live_turn_invariant_preserved`: two concrete `handle_action`
steps, an out-of-turn check and a fold that passes the action on. -/
theorem live_turn_invariant_preserved_witness :
    liveTurnOk tFlop = true ∧ liveTurnOk tThreeFold = true :=
  ⟨live_turn_invariant_preserved.2.2 tFlop 2 "check" 0 (false, "Not your turn")
      tFlop (by decide) (by decide),
   live_turn_invariant_preserved.2.2 tThreeSit 2 "fold" 0 (true, "Action accepted")
      tThreeFold (by decide) (by decide)⟩

/-- **C5** counterexample to the invariant as stated.  From a fresh three-handed
hand, user 3 (not the action holder) sends `sitout`: the sitting-out flag is set
but the courtesy fold is rejected with "Not your turn".  When user 2 then folds,
`_next_turn` passes the action to user 3 — so in a live preflop state the
current player is sitting out, contradicting the claimed "not sitting out"
conjunct. -/
theorem sitout_out_of_turn_breaks_invariant :
    PokerTable.start_hand tThree deckThree = some tThreeDealt ∧
    PokerTable.handle_action tThreeDealt 3 "sitout" 0 =
      some ((true, "Sitting out"), tThreeSit) ∧
    PokerTable.handle_action tThreeSit 2 "fold" 0 =
      some ((true, "Action accepted"), tThreeFold) ∧
    tThreeFold.game_phase = "preflop" ∧
    tThreeFold.current_player = some 3 ∧
    (tThreeFold.players.lookup 3).map PlayerState.is_sitting_out = some true := by
  refine ⟨?_, by decide, by decide, rfl, rfl, by decide⟩
  have hpb1 : PokerTable.post_blind tThreeMid 3 1 = some tThreeSB := by
    have h1 : List.lookup 3 tThreeMid.players =
        some (mkPlayer 100 2 0 [⟨5, .s⟩, ⟨4, .s⟩]) := rfl
    simp only [PokerTable.post_blind, Option.bind_eq_bind, h1, Option.some_bind]
    norm_num [tThreeMid, tThreeSB, baseTable, mkPlayer, updateP, lookup_cons,
      setAssoc, min_def]
  have hpb2 : PokerTable.post_blind tThreeSB 1 2 = some tThreeBB := by
    have h1 : List.lookup 1 tThreeSB.players =
        some (mkPlayer 100 0 0 [⟨9, .s⟩, ⟨8, .s⟩]) := rfl
    simp only [PokerTable.post_blind, Option.bind_eq_bind, h1, Option.some_bind]
    norm_num [tThreeMid, tThreeSB, tThreeBB, baseTable, mkPlayer, updateP, lookup_cons,
      setAssoc, min_def]
  have key : PokerTable.start_hand tThree deckThree =
      (PokerTable.post_blind tThreeMid 3 1).bind (fun t3 =>
        (PokerTable.post_blind t3 1 2).bind (fun t4 =>
          some { t4 with
            current_bet := 2,
            current_player := some 2 })) := rfl
  rw [key, hpb1]
  simp only [Option.some_bind]
  rw [hpb2]
  simp only [Option.some_bind, Option.some.injEq]
  decide

end Poker
